import Mathlib

/-!
Verification of the SMTP argument parsers of the go-smtp repository
(`parse.go`) against its natural-language specification.

Go strings are embedded as `List Char` (the parsers under scrutiny treat
them byte-wise; all characters relevant to the control flow are ASCII).
The mutable `parser` struct, whose single field `s` is the not-yet-consumed
tail of the input, is embedded by state passing: every parsing function
takes the current string and returns, together with its result, the
remaining string.  Go's `(value, error)` returns become `Except`.

Unicode-dependent Go library functions (`strings.ToUpper`,
`strings.EqualFold`, `strings.TrimSpace`) are embedded with their exact
behaviour on the ASCII range; outside ASCII the embedding leaves
characters unchanged, which is faithful for every input exercised here.
-/

deriving instance DecidableEq for Except

/-- Error values produced by the parsers in `parse.go`.  Each constructor
corresponds to one `fmt.Errorf` site; the wrapping constructors mirror the
`"in mailbox: %v"` / `"in local-part: %v"` wrapping. -/
inductive PErr where
  | commandTooShort (line : List Char)
  | expectedEOF (c : Char)
  | expectedGot (c got : Char)
  | malformedADL
  | localPartEmpty
  | domainEmpty
  | malformedQuotedString
  | malformedDotString
  | inMailbox (e : PErr)
  | inLocalPart (e : PErr)
deriving DecidableEq, Repr

/-- Embedding of `parser.expectByte`: consume exactly the byte `c` or fail
with the corresponding error. -/
def expectByte (c : Char) : List Char → Except PErr (List Char)
  | [] => .error (.expectedEOF c)
  | x :: rest => if x = c then .ok rest else .error (.expectedGot c x)

/-- Embedding of the quoted-string loop of `parser.parseLocalPart` (the
branch after the opening `'"'` has been consumed): a backslash escapes the
following byte, a bare `'"'` terminates, and reaching the end of input is
a malformed quoted-string. -/
def parseQuotedBody : List Char → Except PErr (List Char × List Char)
  | [] => .error .malformedQuotedString
  | c :: rest =>
    if c = '"' then .ok ([], rest)
    else if c = '\\' then
      match rest with
      | [] => .error .malformedQuotedString
      | d :: rest' =>
        match parseQuotedBody rest' with
        | .ok (v, r) => .ok (d :: v, r)
        | .error e => .error e
    else
      match parseQuotedBody rest with
      | .ok (v, r) => .ok (c :: v, r)
      | .error e => .error e

/-- Characters rejected inside an unquoted dot-string by
`parser.parseLocalPart`. -/
def isDotStringForbidden (c : Char) : Bool :=
  c = '(' ∨ c = ')' ∨ c = '<' ∨ c = '>' ∨ c = '[' ∨ c = ']' ∨ c = ':' ∨
    c = ';' ∨ c = '\\' ∨ c = ',' ∨ c = '"' ∨ c = ' ' ∨ c = '\t'

/-- Embedding of the dot-string loop of `parser.parseLocalPart`: read any
bytes up to `'@'` (or end of input), failing on a forbidden byte. -/
def parseDotString : List Char → Except PErr (List Char × List Char)
  | [] => .ok ([], [])
  | c :: rest =>
    if c = '@' then .ok ([], c :: rest)
    else if isDotStringForbidden c then .error .malformedDotString
    else
      match parseDotString rest with
      | .ok (v, r) => .ok (c :: v, r)
      | .error e => .error e

/-- Embedding of `parser.parseLocalPart`: a quoted string if the input
starts with `'"'`, otherwise a dot-string. -/
def parseLocalPart (l : List Char) : Except PErr (List Char × List Char) :=
  if l.head? = some '"' then parseQuotedBody l.tail else parseDotString l

/-- Characters at which the domain loop of `parser.parseMailbox` stops. -/
def isDomainStop (c : Char) : Bool :=
  c = ' ' ∨ c = '\t' ∨ c = '>'

/-- Embedding of `parser.parseMailbox`: local part, mandatory `'@'`, then
the maximal run of non-stop bytes as the domain (the byte-reading loop of
the source is denoted by `takeWhile`/`dropWhile`); the accumulated string
must not end in `'@'` (the source's `strings.HasSuffix(sb.String(), "@")`
check), and an empty local part is an error. -/
def parseMailbox (l : List Char) : Except PErr (List Char × List Char) :=
  match parseLocalPart l with
  | .error e => .error (.inLocalPart e)
  | .ok (lp, r) =>
    if lp = [] then .error .localPartEmpty
    else
      match expectByte '@' r with
      | .error e => .error e
      | .ok r' =>
        let dom := r'.takeWhile (fun c => ¬ isDomainStop c)
        let rest := r'.dropWhile (fun c => ¬ isDomainStop c)
        if (lp ++ '@' :: dom).getLast? = some '@' then .error .domainEmpty
        else .ok (lp ++ '@' :: dom, rest)

/-- Embedding of the a-d-l skipping step of `parser.parsePath`
(`strings.IndexByte(p.s, ':')` followed by reslicing): drop everything up
to and including the first `':'`, or report that there is none. -/
def skipADL : List Char → Option (List Char)
  | [] => none
  | c :: rest => if c = ':' then some rest else skipADL rest

/-- Embedding of the tail of `parser.parsePath` once an optional leading
`'<'` and a source route have been handled: parse a mailbox (wrapping its
error) and, when the path was bracketed, require a closing `'>'`. -/
def parsePathTail (hasBracket : Bool) (l : List Char) :
    Except PErr (List Char × List Char) :=
  match parseMailbox l with
  | .error e => .error (.inMailbox e)
  | .ok (mbox, r) =>
    if hasBracket then
      match expectByte '>' r with
      | .error e => .error e
      | .ok r' => .ok (mbox, r')
    else .ok (mbox, r)

/-- Embedding of `parser.parsePath`: optional `'<'`, optional a-d-l source
route (present when the next byte is `'@'`; skipped to the first `':'`,
failing when there is none), then the mailbox and the closing bracket. -/
def parsePath (l : List Char) : Except PErr (List Char × List Char) :=
  let hasBracket : Bool := l.head? = some '<'
  let l1 := if hasBracket then l.tail else l
  if l1.head? = some '@' then
    match skipADL l1.tail with
    | none => .error .malformedADL
    | some t' => parsePathTail hasBracket t'
  else parsePathTail hasBracket l1

/-- Embedding of `parser.parseReversePath`: the literal prefix `"<>"`
yields the empty (null) reverse path, anything else is a `parsePath`. -/
def parseReversePath (l : List Char) : Except PErr (List Char × List Char) :=
  if l.take 2 = ['<', '>'] then .ok ([], l.drop 2) else parsePath l

example : parseReversePath "<>".toList = .ok ([], []) := by decide
example : parseReversePath "<root@nsa.gov>".toList = .ok ("root@nsa.gov".toList, []) := by decide
example : parseReversePath "root@nsa.gov".toList = .ok ("root@nsa.gov".toList, []) := by decide
example : parseReversePath "<root@nsa.gov> AUTH=asdf@example.org".toList =
    .ok ("root@nsa.gov".toList, " AUTH=asdf@example.org".toList) := by decide
example : parseReversePath "root@nsa.gov AUTH=asdf@example.org".toList =
    .ok ("root@nsa.gov".toList, " AUTH=asdf@example.org".toList) := by decide
example : (parseReversePath "".toList).isOk = false := by decide
example : (parseReversePath " ".toList).isOk = false := by decide
example : (parseReversePath "asdf".toList).isOk = false := by decide
example : (parseReversePath "<Foo Bar <root@nsa.gov>>".toList).isOk = false := by decide
example : (parseReversePath " BODY=8BITMIME SIZE=12345".toList).isOk = false := by decide
example : (parseReversePath "a:b:c@example.org".toList).isOk = false := by decide
example : (parseReversePath "<root@nsa.gov".toList).isOk = false := by decide

/-- Embedding of Go's `unicode.IsSpace`, the whitespace notion used by
`strings.Fields` and `strings.TrimSpace`. -/
def goIsSpace (c : Char) : Bool :=
  let n := c.toNat
  (9 ≤ n ∧ n ≤ 13) ∨ n = 32 ∨ n = 0x85 ∨ n = 0xA0 ∨ n = 0x1680 ∨
    (0x2000 ≤ n ∧ n ≤ 0x200A) ∨ n = 0x2028 ∨ n = 0x2029 ∨ n = 0x202F ∨
    n = 0x205F ∨ n = 0x3000

/-- Embedding of `strings.ToUpper` restricted to the ASCII case mapping
(every key and command the repository compares is ASCII). -/
def goToUpper (l : List Char) : List Char :=
  l.map Char.toUpper

/-- Embedding of `strings.TrimRight(line, "\r\n")`: remove every trailing
byte that is a CR or an LF. -/
def goTrimRightCRLF (l : List Char) : List Char :=
  (l.reverse.dropWhile (fun c => c = '\r' ∨ c = '\n')).reverse

/-- Embedding of `strings.TrimSpace`: remove leading and trailing
whitespace. -/
def goTrimSpace (l : List Char) : List Char :=
  ((l.dropWhile goIsSpace).reverse.dropWhile goIsSpace).reverse

/-- Embedding of `parseCmd` from `parse.go`: trim trailing CR/LF, accept
the empty line, split at the first space byte, insist that the command
part has at least 4 bytes, and uppercase it. -/
def parseCmd (line : List Char) : Except PErr (List Char × List Char) :=
  let l := goTrimRightCRLF line
  if l = [] then .ok ([], [])
  else
    match l.findIdx? (fun c => c = ' ') with
    | none =>
      if l.length < 4 then .error (.commandTooShort l)
      else .ok (goToUpper l, [])
    | some i =>
      if i < 4 then .error (.commandTooShort l)
      else .ok (goToUpper (l.take i), goTrimSpace (l.drop (i + 1)))

example : parseCmd "XCLIENT ADDR=127.0.0.1 PORT=55804 PROTO=ESMTP".toList =
    .ok ("XCLIENT".toList, "ADDR=127.0.0.1 PORT=55804 PROTO=ESMTP".toList) := by decide
example : parseCmd "MAIL FROM:<test@example.com>".toList =
    .ok ("MAIL".toList, "FROM:<test@example.com>".toList) := by decide
example : parseCmd "STARTTLS".toList = .ok ("STARTTLS".toList, []) := by decide
example : parseCmd "EHLO localhost".toList = .ok ("EHLO".toList, "localhost".toList) := by decide
example : (parseCmd "HI".toList).isOk = false := by decide
example : parseCmd "XCLIENT ADDR=127.0.0.1\r\n".toList =
    .ok ("XCLIENT".toList, "ADDR=127.0.0.1".toList) := by decide
example : parseCmd "".toList = .ok ([], []) := by decide
example : parseCmd "xclient addr=127.0.0.1".toList =
    .ok ("XCLIENT".toList, "addr=127.0.0.1".toList) := by decide
example : (parseCmd "AB args".toList).isOk = false := by decide
example : parseCmd "TEST arg".toList = .ok ("TEST".toList, "arg".toList) := by decide
example : parseCmd "RCPT  TO:<user@example.com>  ".toList =
    .ok ("RCPT".toList, "TO:<user@example.com>".toList) := by decide

/-- Embedding of `strings.Fields` (split on runs of whitespace, no empty
tokens), written as a single structurally recursive pass with an
accumulator holding the current token reversed. -/
def goFieldsAux : List Char → List Char → List (List Char)
  | [], acc => if acc = [] then [] else [acc.reverse]
  | c :: rest, acc =>
    if goIsSpace c then
      if acc = [] then goFieldsAux rest [] else acc.reverse :: goFieldsAux rest []
    else goFieldsAux rest (c :: acc)

/-- Embedding of `strings.Fields`. -/
def goFields (l : List Char) : List (List Char) :=
  goFieldsAux l []

/-- Embedding of `strings.Cut(s, sep)` for a single-byte separator:
split at the first occurrence, or report that there is none. -/
def goCut (sep : Char) : List Char → Option (List Char × List Char)
  | [] => none
  | c :: rest =>
    if c = sep then some ([], rest)
    else
      match goCut sep rest with
      | none => none
      | some (a, b) => some (c :: a, b)

/-- Association-list embedding of a Go `map[string]string`: assignment
replaces the value of an existing key and otherwise appends. -/
def mapInsert (m : List (List Char × List Char)) (k v : List Char) :
    List (List Char × List Char) :=
  if m.any (fun p => p.1 = k) then
    m.map (fun p => if p.1 = k then (k, v) else p)
  else m ++ [(k, v)]

/-- Lookup in the association-list embedding of a Go map. -/
def mapGet (m : List (List Char × List Char)) (k : List Char) :
    Option (List Char) :=
  (m.find? (fun p => p.1 = k)).map (fun p => p.2)

/-- Embedding of the loop body of `parseArgs`: `strings.Cut(arg, "=")`,
uppercase the key, keep the value (empty when there is no `'='`). -/
def argEntry (tok : List Char) : List Char × List Char :=
  match goCut '=' tok with
  | some (key, value) => (goToUpper key, value)
  | none => (goToUpper tok, [])

/-- Embedding of `parseArgs` from `parse.go`: file the whitespace-separated
tokens into a map; the function always returns a nil error. -/
def parseArgsMap (s : List Char) : List (List Char × List Char) :=
  (goFields s).foldl (fun m tok => mapInsert m (argEntry tok).1 (argEntry tok).2) []

/-- Embedding of `parseArgs` including its `(map, nil error)` return. -/
def parseArgs (s : List Char) : Except Unit (List (List Char × List Char)) :=
  .ok (parseArgsMap s)

example : parseArgsMap " BODY=8BITMIME SIZE=1024 SMTPUTF8".toList =
    [("BODY".toList, "8BITMIME".toList), ("SIZE".toList, "1024".toList),
     ("SMTPUTF8".toList, [])] := by decide
example : parseArgsMap "key=a KEY=b".toList = [("KEY".toList, "b".toList)] := by decide

/-- Modelled from the spec: the `DeliverByMode` constants (declared in a
repository file that is not under `src/`); per RFC 2852 and the spec,
`mode ∈ \x7bR,N\x7d`, so `DeliverByNotify` is the string `"N"` and
`DeliverByReturn` the string `"R"`. -/
def DeliverByNotify : List Char := ['N']

/-- Modelled from the spec: the Return mode constant, the string `"R"`. -/
def DeliverByReturn : List Char := ['R']

/-- Embedding of `time.Duration` arithmetic: Go durations are 64-bit
signed integer nanosecond counts, and Go multiplication wraps around on
overflow, so a mathematical-integer result is reduced into
`[-2^63, 2^63)`. -/
def wrap64 (x : Int) : Int :=
  (x + 9223372036854775808) % 18446744073709551616 - 9223372036854775808

/-- Sign handling of `strconv.Atoi`: an optional leading `'+'` or `'-'`,
returned as an integer factor together with the digit part. -/
def stripSign (l : List Char) : Int × List Char :=
  match l with
  | '+' :: t => (1, t)
  | '-' :: t => (-1, t)
  | t => (1, t)

/-- Syntax accepted by `strconv.Atoi`: an optional sign followed by a
non-empty run of decimal digits (base 10, no underscores). -/
def atoiSyntax (l : List Char) : Bool :=
  ¬ (stripSign l).2 = [] ∧ (stripSign l).2.all Char.isDigit

/-- Numeric value of a run of decimal digits, most significant first. -/
def digitsVal (ds : List Char) : Nat :=
  ds.foldl (fun a c => a * 10 + (c.toNat - 48)) 0

/-- Embedding of `strconv.Atoi`: optional sign, non-empty digit run, and
the value must fit a 64-bit signed integer (the bounds are -2^63 and
2^63 - 1), otherwise an error. -/
def goAtoi (l : List Char) : Option Int :=
  if atoiSyntax l then
    let n : Int := (stripSign l).1 * (digitsVal (stripSign l).2 : Int)
    if n < -9223372036854775808 ∨ n > 9223372036854775807 then none else some n
  else none

/-- Embedding of the `DeliverByOptions` struct: `Time` is a
`time.Duration`, i.e. a signed 64-bit count of nanoseconds, `Mode` the
`DeliverByMode` string, `Trace` the flag for the trailing `T`. -/
structure DeliverByOptions where
  Time : Int
  Mode : List Char
  Trace : Bool
deriving DecidableEq, Repr

/-- Embedding of `strings.CutSuffix(s, "T")`: remove one trailing `'T'`
when present, reporting whether it was. -/
def cutSuffixT (l : List Char) : List Char × Bool :=
  match l.getLast? with
  | some 'T' => (l.dropLast, true)
  | _ => (l, false)

/-- Embedding of `parseDeliverByArgument` from `parse.go`: cut at the
first `';'`, strip one optional trailing `'T'` from the mode, require the
mode to be `"N"` or `"R"`, parse the seconds with `strconv.Atoi`, reject
mode `"R"` with seconds below 1, and build the options with
`time.Duration(secondsValue) * time.Second`. -/
def parseDeliverByArgument (arg : List Char) : Option DeliverByOptions :=
  match goCut ';' arg with
  | none => none
  | some (secondsStr, modeStr0) =>
    let (modeStr, traceValue) := cutSuffixT modeStr0
    if ¬ modeStr = DeliverByNotify ∧ ¬ modeStr = DeliverByReturn then none
    else
      match goAtoi secondsStr with
      | none => none
      | some secondsValue =>
        if modeStr = DeliverByReturn ∧ secondsValue < 1 then none
        else some ⟨wrap64 (secondsValue * 1000000000), modeStr, traceValue⟩

example : parseDeliverByArgument "300;R".toList =
    some ⟨300000000000, ['R'], false⟩ := by decide
example : parseDeliverByArgument "300;NT".toList =
    some ⟨300000000000, ['N'], true⟩ := by decide
example : parseDeliverByArgument "0;R".toList = none := by decide
example : parseDeliverByArgument "0;N".toList = some ⟨0, ['N'], false⟩ := by decide
example : parseDeliverByArgument "300".toList = none := by decide
example : parseDeliverByArgument "abc;N".toList = none := by decide
example : parseDeliverByArgument "300;X".toList = none := by decide
example : parseDeliverByArgument "-5;N".toList =
    some ⟨-5000000000, ['N'], false⟩ := by decide

/-- Errors of the modelled `ParseXRCPTFORWARD`. -/
inductive XErr where
  | emptyInput
  | invalidBase64
  | tooLarge
  | missingEquals
  | emptyKey
deriving DecidableEq, Repr

/-- Byte of the standard base64 alphabet at index `n < 64`. -/
def b64e (n : Nat) : Nat :=
  if n < 26 then 65 + n
  else if n < 52 then 71 + n
  else if n < 62 then n - 4
  else if n = 62 then 43
  else 47

/-- Index of a byte in the standard base64 alphabet, when it has one. -/
def b64d (c : Nat) : Option Nat :=
  if 65 ≤ c ∧ c ≤ 90 then some (c - 65)
  else if 97 ≤ c ∧ c ≤ 122 then some (c - 71)
  else if 48 ≤ c ∧ c ≤ 57 then some (c + 4)
  else if c = 43 then some 62
  else if c = 47 then some 63
  else none

/-- Standard-alphabet base64 encoding of a byte string (with `'='`, byte
61, as padding), as produced by `base64.StdEncoding.EncodeToString`. -/
def base64Encode : List Nat → List Nat
  | [] => []
  | [a] => [b64e (a / 4), b64e (a % 4 * 16), 61, 61]
  | [a, b] => [b64e (a / 4), b64e (a % 4 * 16 + b / 16), b64e (b % 16 * 4), 61]
  | a :: b :: c :: rest =>
    b64e (a / 4) :: b64e (a % 4 * 16 + b / 16) :: b64e (b % 16 * 4 + c / 64) ::
      b64e (c % 64) :: base64Encode rest

/-- Modelled from the spec: standard-alphabet base64 decoding (the
`base64.StdEncoding.DecodeString` call of `ParseXRCPTFORWARD`, whose
source is not under `src/`): four input bytes yield three output bytes,
padding is allowed only in the final group, and a byte outside the
alphabet is an error. -/
def base64Decode : List Nat → Option (List Nat)
  | [] => some []
  | w :: x :: y :: z :: rest =>
    if rest = [] ∧ z = 61 then
      match b64d w, b64d x with
      | some dw, some dx =>
        if y = 61 then some [dw * 4 + dx / 16]
        else
          match b64d y with
          | some dy => some [dw * 4 + dx / 16, dx % 16 * 16 + dy / 4]
          | none => none
      | _, _ => none
    else
      match b64d w, b64d x, b64d y, b64d z with
      | some dw, some dx, some dy, some dz =>
        match base64Decode rest with
        | some bs =>
          some ((dw * 4 + dx / 16) :: (dx % 16 * 16 + dy / 4) :: (dy % 4 * 64 + dz) :: bs)
        | none => none
      | _, _, _, _ => none
  | _ => none

/-- Modelled from the spec: `unescapeXRCPTFORWARD` (not under `src/`);
within a record the two-byte escapes backslash-`t`, backslash-`n`,
backslash-`r` and backslash-backslash are replaced by TAB, LF, CR and
backslash, and nothing else is rewritten. -/
def unescapeXF : List Nat → List Nat
  | [] => []
  | [c] => [c]
  | c :: d :: rest =>
    if c = 92 ∧ (d = 116 ∨ d = 110 ∨ d = 114 ∨ d = 92) then
      (if d = 116 then 9 else if d = 110 then 10 else if d = 114 then 13 else 92) ::
        unescapeXF rest
    else c :: unescapeXF (d :: rest)

/-- Record splitting on TAB (byte 9), the shape of `strings.Split`. -/
def splitTab : List Nat → List (List Nat)
  | [] => [[]]
  | c :: rest =>
    if c = 9 then [] :: splitTab rest
    else
      match splitTab rest with
      | [] => [[c]]
      | t :: ts => (c :: t) :: ts

/-- Cut a record at the first `'='` (byte 61), the shape of
`strings.Cut(record, "=")`. -/
def cutEq : List Nat → Option (List Nat × List Nat)
  | [] => none
  | c :: rest =>
    if c = 61 then some ([], rest)
    else
      match cutEq rest with
      | none => none
      | some (a, b) => some (c :: a, b)

/-- Modelled from the spec: the record loop of `ParseXRCPTFORWARD`; empty
records are ignored, a record missing `'='` or with an empty key is an
error, and values are unescaped. -/
def parseXFRecords : List (List Nat) → Except XErr (List (List Nat × List Nat))
  | [] => .ok []
  | rec0 :: rest =>
    if rec0 = [] then parseXFRecords rest
    else
      match cutEq rec0 with
      | none => .error .missingEquals
      | some (k, v) =>
        if k = [] then .error .emptyKey
        else
          match parseXFRecords rest with
          | .ok tail => .ok ((k, unescapeXF v) :: tail)
          | .error e => .error e

/-- Modelled from the spec: `ParseXRCPTFORWARD` (its Go source is not
under `src/`; its behaviour is fixed by the spec's XRCPTFORWARD paragraph
and `rcpt_extensions_test.go`): reject empty input, base64-decode with the
standard alphabet, reject decoded content longer than 900 octets, split
the decoded bytes into TAB-separated `key=value` records. -/
def ParseXRCPTFORWARD (s : List Nat) : Except XErr (List (List Nat × List Nat)) :=
  if s = [] then .error .emptyInput
  else
    match base64Decode s with
    | none => .error .invalidBase64
    | some bytes =>
      if bytes.length > 900 then .error .tooLarge
      else parseXFRecords (splitTab bytes)

/-- Byte string of an ASCII Lean string, for concrete test inputs. -/
def asciiBytes (s : String) : List Nat :=
  s.toList.map Char.toNat

/-- The TAB-separated `key=value` rendering of a pair list, the encoding
whose base64 image `ParseXRCPTFORWARD` parses. -/
def encodePairs (pairs : List (List Nat × List Nat)) : List Nat :=
  match pairs with
  | [] => []
  | [p] => p.1 ++ 61 :: p.2
  | p :: rest => p.1 ++ 61 :: p.2 ++ 9 :: encodePairs rest

example : base64Decode (base64Encode (asciiBytes "user=john\tsession=12345")) =
    some (asciiBytes "user=john\tsession=12345") := by decide
example : base64Encode (asciiBytes "user=john\tsession=12345") =
    asciiBytes "dXNlcj1qb2huCXNlc3Npb249MTIzNDU=" := by decide
example : ParseXRCPTFORWARD (base64Encode (asciiBytes "user=john\tsession=12345")) =
    .ok [(asciiBytes "user", asciiBytes "john"), (asciiBytes "session", asciiBytes "12345")] := by
  decide
example : ParseXRCPTFORWARD (base64Encode (asciiBytes "name=john\\tsmith\tpath=/var\\nmailbox")) =
    .ok [(asciiBytes "name", asciiBytes "john\tsmith"),
         (asciiBytes "path", asciiBytes "/var\nmailbox")] := by decide
example : ParseXRCPTFORWARD (base64Encode (asciiBytes "user=\tactive=true")) =
    .ok [(asciiBytes "user", []), (asciiBytes "active", asciiBytes "true")] := by decide
example : ParseXRCPTFORWARD [] = .error .emptyInput := by decide
example : ParseXRCPTFORWARD (asciiBytes "invalid-base64!") = .error .invalidBase64 := by decide
example : ParseXRCPTFORWARD (base64Encode (asciiBytes "user=john\t\tactive=true")) =
    .ok [(asciiBytes "user", asciiBytes "john"), (asciiBytes "active", asciiBytes "true")] := by
  decide
example : ParseXRCPTFORWARD (base64Encode (asciiBytes "invalidformat\tuser=john")) =
    .error .missingEquals := by decide
example : ParseXRCPTFORWARD (base64Encode (asciiBytes "=value\tuser=john")) =
    .error .emptyKey := by decide
example : unescapeXF (asciiBytes "user=john\\tsmith") = asciiBytes "user=john\tsmith" := by decide
example : unescapeXF (asciiBytes "escaped=\\\\backslash") =
    asciiBytes "escaped=\\backslash" := by decide
example : unescapeXF (asciiBytes "mixed=\\t\\n\\r\\\\test") =
    asciiBytes "mixed=\t\n\r\\test" := by decide
example : unescapeXF (asciiBytes "noescapes=normaltext") =
    asciiBytes "noescapes=normaltext" := by decide

/-- First token of a trimmed command line in the sense of claim C1: the
part before the first space byte, or the whole line when there is none. -/
def firstTokenC1 (l : List Char) : List Char :=
  match l.findIdx? (fun c => c = ' ') with
  | some i => l.take i
  | none => l

/-- Argument part of a trimmed command line in the sense of claim C1: the
whitespace-trimmed remainder after the first space byte, or empty when
there is no space. -/
def argPartC1 (l : List Char) : List Char :=
  match l.findIdx? (fun c => c = ' ') with
  | some i => goTrimSpace (l.drop (i + 1))
  | none => []

/-- Claim C1 as stated: `parseCmd` errors with "command too short" if and
only if the trimmed line is non-empty and its first token is shorter than
4 characters AND IS NOT EMPTY; in every other case it succeeds with the
uppercased first token and the trimmed remainder. -/
def c1Claim : Prop :=
  ∀ line : List Char,
    (parseCmd line = .error (.commandTooShort (goTrimRightCRLF line)) ↔
      (goTrimRightCRLF line ≠ [] ∧ (firstTokenC1 (goTrimRightCRLF line)).length < 4 ∧
        firstTokenC1 (goTrimRightCRLF line) ≠ [])) ∧
    (¬ (goTrimRightCRLF line ≠ [] ∧ (firstTokenC1 (goTrimRightCRLF line)).length < 4 ∧
        firstTokenC1 (goTrimRightCRLF line) ≠ []) →
      parseCmd line = .ok (goToUpper (firstTokenC1 (goTrimRightCRLF line)),
        argPartC1 (goTrimRightCRLF line)))

/-- An index returned by `findIdx?` is in range. -/
theorem findIdx?_lt_length {p : Char → Bool} {l : List Char} {i : Nat}
    (h : l.findIdx? p = some i) : i < l.length := by
  induction l generalizing i with
  | nil => simp [List.findIdx?] at h
  | cons c rest ih =>
    rw [List.findIdx?_cons] at h
    simp only [List.length_cons]
    by_cases hp : p c
    · simp [hp] at h
      omega
    · simp [hp] at h
      obtain ⟨j, hj, rfl⟩ := h
      have := ih hj
      omega

/-- C1, counterexample: the claim as stated is false.  On the line
consisting of a single space, the trimmed line is non-empty and the first
token is empty, so the claim demands success with an empty command, but
`parseCmd` returns the "command too short" error (the source compares the
space index, not the token emptiness). -/
theorem C1_counterexample : ¬ c1Claim := by
  intro h
  have h2 := (h [' ']).2 (by decide)
  exact absurd h2 (by decide)

/-- C1, amended: after trimming trailing CR and LF, `parseCmd` returns the
"command too short" error (carrying the trimmed line) if and only if the
trimmed line is non-empty and its first token — the prefix before the
first space byte, or the whole line when there is no space, POSSIBLY EMPTY
when the line starts with a space — is shorter than 4 characters;
otherwise it returns the uppercased first token and the whitespace-trimmed
remainder, the empty line yielding empty command, empty argument and no
error. -/
theorem C1_theorem (line : List Char) :
    (parseCmd line = .error (.commandTooShort (goTrimRightCRLF line)) ↔
      (goTrimRightCRLF line ≠ [] ∧ (firstTokenC1 (goTrimRightCRLF line)).length < 4)) ∧
    (goTrimRightCRLF line = [] → parseCmd line = .ok ([], [])) ∧
    (goTrimRightCRLF line ≠ [] → ¬ (firstTokenC1 (goTrimRightCRLF line)).length < 4 →
      parseCmd line = .ok (goToUpper (firstTokenC1 (goTrimRightCRLF line)),
        argPartC1 (goTrimRightCRLF line))) := by
  generalize hl : goTrimRightCRLF line = l
  rw [parseCmd, hl]
  by_cases h0 : l = []
  · subst h0
    simp [firstTokenC1, List.findIdx?]
  · rw [if_neg h0]
    unfold firstTokenC1 argPartC1
    cases hfind : l.findIdx? (fun c => c = ' ') with
    | none =>
      simp only [hfind]
      by_cases hlen : l.length < 4
      · simp [hlen, h0]
      · simp [hlen, h0]
    | some i =>
      have hi := findIdx?_lt_length hfind
      simp only [hfind]
      by_cases hlen : i < 4
      · have : (l.take i).length < 4 := by
          simp
          omega
        simp [hlen, h0, this]
      · have : ¬ (l.take i).length < 4 := by
          simp
          omega
        simp [hlen, h0, this]
        omega

/-- C1, witness: the amended theorem applied to the concrete line
`"MAIL FROM:<a@b>"`. -/
theorem C1_witness :
    parseCmd ("MAIL FROM:<a@b>".toList) = .ok ("MAIL".toList, "FROM:<a@b>".toList) := by
  have h := (C1_theorem ("MAIL FROM:<a@b>".toList)).2.2 (by decide) (by decide)
  exact h.trans (by decide)

/-- `takeWhile` passes over an appended block whose elements all satisfy
the predicate. -/
theorem takeWhile_append_all {p : Char → Bool} {u : List Char} (v : List Char)
    (h : ∀ c ∈ u, p c = true) : (u ++ v).takeWhile p = u ++ v.takeWhile p := by
  induction u with
  | nil => simp
  | cons c rest ih =>
    have hc := h c (by simp)
    simp only [List.cons_append, List.takeWhile_cons, hc, if_true]
    rw [ih (fun d hd => h d (by simp [hd]))]

/-- `dropWhile` passes over an appended block whose elements all satisfy
the predicate. -/
theorem dropWhile_append_all {p : Char → Bool} {u : List Char} (v : List Char)
    (h : ∀ c ∈ u, p c = true) : (u ++ v).dropWhile p = v.dropWhile p := by
  induction u with
  | nil => simp
  | cons c rest ih =>
    have hc := h c (by simp)
    simp only [List.cons_append, List.dropWhile_cons, hc, if_true]
    exact ih (fun d hd => h d (by simp [hd]))

/-- `takeWhile` of an append stops inside the first block when the first
block contains a failing element. -/
theorem takeWhile_append_stop {p : Char → Bool} {u : List Char} (v : List Char)
    (h : u.dropWhile p ≠ []) : (u ++ v).takeWhile p = u.takeWhile p := by
  induction u with
  | nil => simp at h
  | cons c rest ih =>
    by_cases hc : p c
    · simp only [List.dropWhile_cons, hc, if_true] at h
      simp only [List.cons_append, List.takeWhile_cons, hc, if_true]
      rw [ih h]
    · simp [List.takeWhile_cons, hc]

/-- `dropWhile` of an append keeps the second block intact when the first
block contains a failing element. -/
theorem dropWhile_append_stop {p : Char → Bool} {u : List Char} (v : List Char)
    (h : u.dropWhile p ≠ []) : (u ++ v).dropWhile p = u.dropWhile p ++ v := by
  induction u with
  | nil => simp at h
  | cons c rest ih =>
    by_cases hc : p c
    · simp only [List.dropWhile_cons, hc, if_true] at h ⊢
      simp only [List.cons_append, List.dropWhile_cons, hc, if_true]
      exact ih h
    · simp [List.dropWhile_cons, hc]

/-- The head of `dropWhile p` fails `p`. -/
theorem dropWhile_head?_false {p : Char → Bool} {u : List Char} {c : Char}
    (h : (u.dropWhile p).head? = some c) : p c = false := by
  induction u with
  | nil => simp at h
  | cons d rest ih =>
    by_cases hd : p d
    · simp only [List.dropWhile_cons, hd, if_true] at h
      exact ih h
    · rw [List.dropWhile_cons, if_neg hd] at h
      simp only [List.head?_cons, Option.some.injEq] at h
      subst h
      simpa using hd

/-- Evaluation of the dot-string loop: it returns the maximal `'@'`-free
prefix and the remainder, provided no forbidden byte occurs in that
prefix. -/
theorem parseDotString_eq (l : List Char)
    (h : ∀ c ∈ l.takeWhile (fun c => ¬ c = '@'), isDotStringForbidden c = false) :
    parseDotString l =
      .ok (l.takeWhile (fun c => ¬ c = '@'), l.dropWhile (fun c => ¬ c = '@')) := by
  induction l with
  | nil => simp [parseDotString]
  | cons c rest ih =>
    by_cases hc : c = '@'
    · subst hc
      simp [parseDotString, List.takeWhile_cons, List.dropWhile_cons]
    · have hstep : (decide ¬ c = '@') = true := by simpa using hc
      have hmem : c ∈ (c :: rest).takeWhile (fun c => ¬ c = '@') := by
        simp [List.takeWhile_cons, hstep, hc]
      have hforb := h c hmem
      have hrest : ∀ d ∈ rest.takeWhile (fun c => ¬ c = '@'),
          isDotStringForbidden d = false := by
        intro d hd
        refine h d ?_
        rw [List.takeWhile_cons, if_pos hstep]
        exact List.mem_cons_of_mem c hd
      have hun : parseDotString (c :: rest) =
          match parseDotString rest with
          | .ok (v, r) => .ok (c :: v, r)
          | .error e => .error e := by
        simp [parseDotString, hc, hforb]
      rw [hun, ih hrest]
      simp [List.takeWhile_cons, List.dropWhile_cons, hstep, hc]

/-- Stop bytes of the domain loop are forbidden dot-string bytes. -/
theorem domainStop_forbidden (c : Char) (h : isDomainStop c = true) :
    isDotStringForbidden c = true := by
  simp only [isDomainStop, decide_eq_true_eq] at h
  rcases h with h | h | h <;> subst h <;> decide

/-- A byte that is legal in a dot-string is not a domain stop byte. -/
theorem not_domainStop_of_not_forbidden {c : Char}
    (h : isDotStringForbidden c = false) : isDomainStop c = false := by
  by_contra hc
  rw [Bool.not_eq_false] at hc
  rw [domainStop_forbidden c hc] at h
  simp at h

/-- Evaluation of `parseMailbox` on a rendering `local ++ "@" ++ domain`
followed by `'>'`: when the local part is non-empty, free of forbidden
bytes and does not start with `'@'`, and the domain is non-empty, free of
stop bytes and does not end with `'@'`, the mailbox parse succeeds,
returns exactly `local@domain` and stops at the `'>'`. -/
theorem parseMailbox_wellFormed (lcl domain rest : List Char)
    (hl : lcl ≠ []) (hlf : ∀ c ∈ lcl, isDotStringForbidden c = false)
    (hlh : lcl.head? ≠ some '@')
    (hd : domain ≠ []) (hds : ∀ c ∈ domain, isDomainStop c = false)
    (hdl : domain.getLast? ≠ some '@') :
    parseMailbox (lcl ++ '@' :: (domain ++ '>' :: rest)) =
      .ok (lcl ++ '@' :: domain, '>' :: rest) := by
  obtain ⟨a, l', rfl⟩ : ∃ a l', lcl = a :: l' := by
    cases lcl with
    | nil => exact absurd rfl hl
    | cons a l' => exact ⟨a, l', rfl⟩
  have ha_at : ¬ a = '@' := by simpa using hlh
  have ha_forb : isDotStringForbidden a = false := hlf a (by simp)
  have ha_q : ¬ a = '"' := by
    intro hq
    subst hq
    rw [show isDotStringForbidden '"' = true from by decide] at ha_forb
    simp at ha_forb
  -- the local part scan
  have hstepA : parseLocalPart ((a :: l') ++ '@' :: (domain ++ '>' :: rest)) =
      parseDotString ((a :: l') ++ '@' :: (domain ++ '>' :: rest)) := by
    simp only [parseLocalPart, List.cons_append, List.head?_cons]
    rw [if_neg (by simp [ha_q])]
  have hpa : (fun c => decide (¬ c = '@')) a = true := by simpa using ha_at
  have hlp_cons : (a :: l').takeWhile (fun c => ¬ c = '@') =
      a :: l'.takeWhile (fun c => ¬ c = '@') := by
    rw [List.takeWhile_cons, if_pos hpa]
  have htwdw :
      ((a :: l') ++ '@' :: (domain ++ '>' :: rest)).takeWhile (fun c => ¬ c = '@') =
        (a :: l').takeWhile (fun c => ¬ c = '@') ∧
      ((a :: l') ++ '@' :: (domain ++ '>' :: rest)).dropWhile (fun c => ¬ c = '@') =
        (a :: l').dropWhile (fun c => ¬ c = '@') ++ '@' :: (domain ++ '>' :: rest) := by
    by_cases hsplit : (a :: l').dropWhile (fun c => ¬ c = '@') = []
    · have hall : ∀ c ∈ (a :: l'), (fun c => decide (¬ c = '@')) c = true := by
        rw [List.dropWhile_eq_nil_iff] at hsplit
        intro c hc
        simpa using hsplit c hc
      constructor
      · rw [takeWhile_append_all _ hall, List.takeWhile_cons]
        rw [if_neg (by simp), List.append_nil,
          (List.takeWhile_eq_self_iff).2 (fun c hc => by simpa using hall c hc)]
      · rw [dropWhile_append_all _ hall, List.dropWhile_cons, if_neg (by simp), hsplit]
        simp
    · exact ⟨takeWhile_append_stop _ hsplit, dropWhile_append_stop _ hsplit⟩
  have hforbhyp : ∀ c ∈ ((a :: l') ++ '@' :: (domain ++ '>' :: rest)).takeWhile
      (fun c => ¬ c = '@'), isDotStringForbidden c = false := by
    intro c hc
    rw [htwdw.1] at hc
    exact hlf c ((List.takeWhile_sublist _).mem hc)
  have hdseq := parseDotString_eq _ hforbhyp
  rw [htwdw.1, htwdw.2] at hdseq
  -- the domain scan on the remainder after the '@'
  have hqdom : ∀ c ∈ domain, (fun c => decide (¬ isDomainStop c = true)) c = true := by
    intro c hc
    simp [hds c hc]
  have hqgt : (fun c => decide (¬ isDomainStop c = true)) '>' = false := by decide
  have hqat : (fun c => decide (¬ isDomainStop c = true)) '@' = true := by decide
  simp only [parseMailbox, hstepA, hdseq, hlp_cons]
  rw [if_neg (by simp)]
  cases hsplit2 : (a :: l').dropWhile (fun c => ¬ c = '@') with
  | nil =>
    -- no '@' inside the local part: the dot-string is all of it
    have hall : ∀ c ∈ (a :: l'), (fun c => decide (¬ c = '@')) c = true := by
      rw [List.dropWhile_eq_nil_iff] at hsplit2
      intro c hc
      simpa using hsplit2 c hc
    have hself : (a :: l').takeWhile (fun c => ¬ c = '@') = a :: l' :=
      (List.takeWhile_eq_self_iff).2 (fun c hc => by simpa using hall c hc)
    rw [hlp_cons.symm, hself]
    have hexp : expectByte '@' ([] ++ '@' :: (domain ++ '>' :: rest)) =
        Except.ok (domain ++ '>' :: rest) := by
      simp [expectByte]
    rw [hexp]
    have htw2 : (domain ++ '>' :: rest).takeWhile (fun c => ¬ isDomainStop c = true) =
        domain := by
      rw [takeWhile_append_all _ hqdom, List.takeWhile_cons, if_neg (by decide)]
      simp
    have hdw2 : (domain ++ '>' :: rest).dropWhile (fun c => ¬ isDomainStop c = true) =
        '>' :: rest := by
      rw [dropWhile_append_all _ hqdom, List.dropWhile_cons, if_neg (by decide)]
    simp only [htw2, hdw2]
    rw [if_neg]
    · rw [show (a :: l') ++ '@' :: domain = ((a :: l') ++ ['@']) ++ domain by simp]
      rw [List.getLast?_append_of_ne_nil _ hd]
      exact hdl
  | cons b l2 =>
    -- the local part contains a further '@'; the domain scan swallows it
    have hb : b = '@' := by
      have hh0 : ((a :: l').dropWhile (fun c => ¬ c = '@')).head? = some b := by
        rw [hsplit2]
        rfl
      simpa using dropWhile_head?_false hh0
    subst hb
    have hl2mem : ∀ c ∈ l2, c ∈ (a :: l') := by
      intro c hc
      have hsuff : List.IsSuffix ((a :: l').dropWhile (fun c => ¬ c = '@')) (a :: l') :=
        List.dropWhile_suffix _
      rw [hsplit2] at hsuff
      exact hsuff.subset (by simp [hc])
    have hql2 : ∀ c ∈ l2 ++ '@' :: domain,
        (fun c => decide (¬ isDomainStop c = true)) c = true := by
      intro c hc
      rcases List.mem_append.1 hc with hc | hc
      · have := hlf c (hl2mem c hc)
        simp [not_domainStop_of_not_forbidden this]
      · rcases List.mem_cons.1 hc with rfl | hc
        · exact hqat
        · exact hqdom c hc
    have hexp : expectByte '@' (('@' :: l2) ++ '@' :: (domain ++ '>' :: rest)) =
        Except.ok (l2 ++ '@' :: (domain ++ '>' :: rest)) := by
      simp [expectByte]
    rw [hexp]
    have hassoc : l2 ++ '@' :: (domain ++ '>' :: rest) =
        (l2 ++ '@' :: domain) ++ '>' :: rest := by simp
    have htw2 : (l2 ++ '@' :: (domain ++ '>' :: rest)).takeWhile
        (fun c => ¬ isDomainStop c = true) = l2 ++ '@' :: domain := by
      rw [hassoc, takeWhile_append_all _ hql2, List.takeWhile_cons,
        if_neg (by decide)]
      simp
    have hdw2 : (l2 ++ '@' :: (domain ++ '>' :: rest)).dropWhile
        (fun c => ¬ isDomainStop c = true) = '>' :: rest := by
      rw [hassoc, dropWhile_append_all _ hql2, List.dropWhile_cons,
        if_neg (by decide)]
    simp only [htw2, hdw2]
    have hsb : (a :: l'.takeWhile (fun c => ¬ c = '@')) ++ '@' :: (l2 ++ '@' :: domain) =
        (a :: l') ++ '@' :: domain := by
      have hre : (a :: l'.takeWhile (fun c => ¬ c = '@')) ++ '@' :: l2 = a :: l' := by
        rw [← hlp_cons, ← hsplit2]
        exact List.takeWhile_append_dropWhile _ _
      calc (a :: l'.takeWhile (fun c => ¬ c = '@')) ++ '@' :: (l2 ++ '@' :: domain)
          = ((a :: l'.takeWhile (fun c => ¬ c = '@')) ++ '@' :: l2) ++ '@' :: domain := by
            simp
        _ = (a :: l') ++ '@' :: domain := by rw [hre]
    rw [hsb]
    rw [if_neg]
    · rw [show (a :: l') ++ '@' :: domain = ((a :: l') ++ ['@']) ++ domain by simp]
      rw [List.getLast?_append_of_ne_nil _ hd]
      exact hdl

/-- A reverse path that does not begin with the two bytes `"<>"` is parsed
by `parsePath`. -/
theorem parseReversePath_not_null (l : List Char) (h : ¬ l.take 2 = ['<', '>']) :
    parseReversePath l = parsePath l := by
  simp only [parseReversePath]
  rw [if_neg h]

/-- A bracketed path whose content does not begin with `'@'` is the
bracketed mailbox parse of its content. -/
theorem parsePath_bracket (t : List Char) (h : ¬ t.head? = some '@') :
    parsePath ('<' :: t) = parsePathTail true t := by
  simp [parsePath, h]

/-- Well-formedness of a reverse path `local@domain` in the sense of claim
C2: the local part is a non-empty dot-string free of the forbidden set,
and the domain is non-empty and free of space, TAB and `'>'`. -/
def c2WellFormed (lcl domain : List Char) : Prop :=
  lcl ≠ [] ∧ (∀ c ∈ lcl, isDotStringForbidden c = false) ∧
    domain ≠ [] ∧ (∀ c ∈ domain, isDomainStop c = false)

instance (lcl domain : List Char) : Decidable (c2WellFormed lcl domain) := by
  unfold c2WellFormed
  infer_instance

/-- Claim C2 as stated: for every well-formed reverse path, parsing the
canonical rendering `"<" ++ local ++ "@" ++ domain ++ ">"` succeeds,
returns exactly the path, and consumes the whole rendering. -/
def c2Claim : Prop :=
  ∀ lcl domain : List Char, c2WellFormed lcl domain →
    parseReversePath (('<' :: (lcl ++ '@' :: domain)) ++ ['>']) =
      .ok (lcl ++ '@' :: domain, [])

/-- C2, counterexample: the claim as stated is false.  The path `"a@b@"`
is well-formed in the claim's sense (the domain `"b@"` is non-empty and
contains no space, TAB or `'>'`), yet parsing `"<a@b@>"` fails with a
"domain is empty" error, because the source rejects any accumulated
mailbox that merely ENDS in `'@'`, not only an empty domain. -/
theorem C2_counterexample : ¬ c2Claim := by
  intro h
  have h2 := h ['a'] ['b', '@'] (by decide)
  exact absurd h2 (by decide)

/-- C2, amended: the round-trip holds for every well-formed reverse path
whose local part does not begin with `'@'` (otherwise the rendering is
mistaken for an a-d-l source route) and whose domain does not end with
`'@'` (otherwise the parser reports an empty domain): parsing the
canonical rendering succeeds, returns exactly `local@domain`, and
consumes the whole rendering. -/
theorem C2_theorem (lcl domain : List Char) (h : c2WellFormed lcl domain)
    (hlh : lcl.head? ≠ some '@') (hdl : domain.getLast? ≠ some '@') :
    parseReversePath (('<' :: (lcl ++ '@' :: domain)) ++ ['>']) =
      .ok (lcl ++ '@' :: domain, []) := by
  obtain ⟨hl, hlf, hd, hds⟩ := h
  obtain ⟨a, l', rfl⟩ : ∃ a l', lcl = a :: l' := by
    cases lcl with
    | nil => exact absurd rfl hl
    | cons a l' => exact ⟨a, l', rfl⟩
  have ha_forb : isDotStringForbidden a = false := hlf a (by simp)
  have ha_gt : ¬ a = '>' := by
    intro hq
    subst hq
    rw [show isDotStringForbidden '>' = true from by decide] at ha_forb
    simp at ha_forb
  have ha_at : ¬ a = '@' := by simpa using hlh
  have hM : (('<' :: ((a :: l') ++ '@' :: domain)) ++ ['>']) =
      '<' :: ((a :: l') ++ '@' :: (domain ++ '>' :: ([] : List Char))) := by simp
  rw [hM]
  have hne : ¬ ('<' :: ((a :: l') ++ '@' :: (domain ++ '>' :: ([] : List Char)))).take 2 =
      ['<', '>'] := by
    simp [ha_gt]
  rw [parseReversePath_not_null _ hne]
  rw [parsePath_bracket _ (by simpa using ha_at)]
  simp only [parsePathTail]
  rw [parseMailbox_wellFormed (a :: l') domain [] hl hlf hlh hd hds hdl]
  simp [expectByte]

/-- C2, witness: the amended round-trip applied to the concrete path
`root@nsa.gov`. -/
theorem C2_witness :
    parseReversePath (('<' :: ("root".toList ++ '@' :: "nsa.gov".toList)) ++ ['>']) =
      .ok ("root".toList ++ '@' :: "nsa.gov".toList, []) :=
  C2_theorem "root".toList "nsa.gov".toList (by decide) (by decide) (by decide)

/-- Inversion of `expectByte`: success means the input began with the
expected byte. -/
theorem expectByte_ok {c : Char} {l r : List Char} (h : expectByte c l = .ok r) :
    l = c :: r := by
  cases l with
  | nil => simp [expectByte] at h
  | cons x rest =>
    by_cases hx : x = c
    · subst hx
      simp [expectByte] at h
      rw [h]
    · simp [expectByte, hx] at h

/-- The unconsumed remainder of the quoted-string loop is a suffix of its
input. -/
theorem parseQuotedBody_ok_suffix {l v r : List Char}
    (h : parseQuotedBody l = .ok (v, r)) : ∃ u, l = u ++ r := by
  induction l using parseQuotedBody.induct generalizing v r with
  | case1 => simp [parseQuotedBody] at h
  | case2 rest =>
    rw [parseQuotedBody.eq_def] at h
    simp at h
    exact ⟨['"'], by rw [h.2]; simp⟩
  | case3 hq =>
    rw [parseQuotedBody.eq_def] at h
    simp at h
  | case4 d rest' v0 r0 hrec hq ih =>
    rw [parseQuotedBody.eq_def] at h
    simp only [if_neg hq, if_pos rfl, hrec] at h
    simp at h
    obtain ⟨u, hu⟩ := ih hrec
    exact ⟨'\\' :: d :: u, by rw [hu, ← h.2]; simp⟩
  | case5 d rest' e hrec hq ih =>
    rw [parseQuotedBody.eq_def] at h
    simp only [if_neg hq, if_pos rfl, hrec] at h
    simp at h
  | case6 d rest' hdq hds v0 r0 hrec ih =>
    rw [parseQuotedBody.eq_def] at h
    simp only [if_neg hdq, if_neg hds, hrec] at h
    simp at h
    obtain ⟨u, hu⟩ := ih hrec
    exact ⟨d :: u, by rw [hu, ← h.2]; simp⟩
  | case7 d rest' hdq hds e hrec ih =>
    rw [parseQuotedBody.eq_def] at h
    simp only [if_neg hdq, if_neg hds, hrec] at h
    simp at h

/-- The dot-string loop returns exactly the consumed prefix and the
remainder. -/
theorem parseDotString_ok {l v r : List Char}
    (h : parseDotString l = .ok (v, r)) : l = v ++ r := by
  induction l generalizing v r with
  | nil =>
    simp [parseDotString] at h
    rw [h.1, h.2]
    rfl
  | cons c rest ih =>
    by_cases hc : c = '@'
    · subst hc
      simp [parseDotString] at h
      rw [h.1, ← h.2]
      rfl
    · by_cases hf : isDotStringForbidden c
      · simp [parseDotString, hc, hf] at h
      · simp only [parseDotString, if_neg hc, hf, Bool.false_eq_true, if_false] at h
        cases hrec : parseDotString rest with
        | error e =>
          simp only [hrec] at h
          exact Except.noConfusion h
        | ok p =>
          obtain ⟨v0, r0⟩ := p
          simp only [hrec] at h
          simp at h
          rw [← h.1, ← h.2, ih hrec]
          rfl

/-- The unconsumed remainder of the local-part parse is a suffix of its
input. -/
theorem parseLocalPart_ok_suffix {l lp r : List Char}
    (h : parseLocalPart l = .ok (lp, r)) : ∃ u, l = u ++ r := by
  unfold parseLocalPart at h
  by_cases hq : l.head? = some '"'
  · rw [if_pos hq] at h
    obtain ⟨u, hu⟩ := parseQuotedBody_ok_suffix h
    cases l with
    | nil => simp at hq
    | cons c t =>
      simp at hq
      subst hq
      exact ⟨'"' :: u, by simp at hu; rw [hu]; simp⟩
  · rw [if_neg hq] at h
    exact ⟨lp, parseDotString_ok h⟩

/-- Inversion of `parseMailbox`: a successful parse means the local part
scan succeeded with a non-empty result, the next byte was `'@'`, the
returned mailbox appends the maximal stop-free run after the `'@'`, that
run is non-empty, and the remainder is everything after it. -/
theorem parseMailbox_ok_inv {l m rest : List Char}
    (h : parseMailbox l = .ok (m, rest)) :
    ∃ lp r, parseLocalPart l = .ok (lp, '@' :: r) ∧ ¬ lp = [] ∧
      m = lp ++ '@' :: r.takeWhile (fun c => ¬ isDomainStop c) ∧
      rest = r.dropWhile (fun c => ¬ isDomainStop c) ∧
      ¬ r.takeWhile (fun c => ¬ isDomainStop c) = [] := by
  cases hlp : parseLocalPart l with
  | error e =>
    simp only [parseMailbox, hlp] at h
    exact Except.noConfusion h
  | ok p =>
    obtain ⟨lp, r0⟩ := p
    simp only [parseMailbox, hlp] at h
    by_cases hemp : lp = []
    · rw [if_pos hemp] at h
      simp at h
    · rw [if_neg hemp] at h
      cases hexp : expectByte '@' r0 with
      | error e =>
        simp only [hexp] at h
        exact Except.noConfusion h
      | ok r =>
        simp only [hexp] at h
        have hr0 : r0 = '@' :: r := expectByte_ok hexp
        by_cases hlast :
            (lp ++ '@' :: r.takeWhile (fun c => ¬ isDomainStop c)).getLast? = some '@'
        · rw [if_pos hlast] at h
          simp at h
        · rw [if_neg hlast] at h
          simp only [Except.ok.injEq, Prod.mk.injEq] at h
          refine ⟨lp, r, by rw [← hr0], hemp, h.1.symm, h.2.symm, ?_⟩
          intro htw
          rw [htw] at hlast
          exact hlast (by simp)

/-- The unconsumed remainder of the mailbox parse is a suffix of its
input. -/
theorem parseMailbox_ok_suffix {l m rest : List Char}
    (h : parseMailbox l = .ok (m, rest)) : ∃ u, l = u ++ rest := by
  obtain ⟨lp, r, hlp, _, _, hrest, _⟩ := parseMailbox_ok_inv h
  obtain ⟨u1, hu1⟩ := parseLocalPart_ok_suffix hlp
  refine ⟨u1 ++ '@' :: r.takeWhile (fun c => ¬ isDomainStop c), ?_⟩
  rw [hu1, hrest]
  have hsplit := List.takeWhile_append_dropWhile (fun c => ¬ isDomainStop c) r
  calc u1 ++ '@' :: r
      = u1 ++ '@' :: (r.takeWhile (fun c => ¬ isDomainStop c) ++
          r.dropWhile (fun c => ¬ isDomainStop c)) := by rw [hsplit]
    _ = (u1 ++ '@' :: r.takeWhile (fun c => ¬ isDomainStop c)) ++
          r.dropWhile (fun c => ¬ isDomainStop c) := by simp

/-- A successful bracketed path parse consumed a `'>'` immediately before
its remainder. -/
theorem parsePathTail_true_ok {l m rest : List Char}
    (h : parsePathTail true l = .ok (m, rest)) : ∃ u, l = u ++ '>' :: rest := by
  cases hmb : parseMailbox l with
  | error e =>
    simp only [parsePathTail, hmb] at h
    exact Except.noConfusion h
  | ok p =>
    obtain ⟨mbox, r⟩ := p
    simp only [parsePathTail, hmb, if_pos rfl] at h
    cases hexp : expectByte '>' r with
    | error e =>
      simp only [hexp] at h
      exact Except.noConfusion h
    | ok r' =>
      simp only [hexp] at h
      simp at h
      obtain ⟨u, hu⟩ := parseMailbox_ok_suffix hmb
      exact ⟨u, by rw [hu, expectByte_ok hexp, h.2]⟩

/-- What `skipADL` discarded is a prefix ending at a `':'`. -/
theorem skipADL_some {t r : List Char} (h : skipADL t = some r) :
    ∃ u, t = u ++ ':' :: r := by
  induction t generalizing r with
  | nil => simp [skipADL] at h
  | cons c rest ih =>
    by_cases hc : c = ':'
    · subst hc
      simp [skipADL] at h
      exact ⟨[], by rw [h]; simp⟩
    · rw [show skipADL (c :: rest) = skipADL rest from by simp [skipADL, hc]] at h
      obtain ⟨u, hu⟩ := ih h
      exact ⟨c :: u, by rw [hu]; simp⟩

/-- A bracketed path whose content begins with `'@'` skips its a-d-l
source route up to the first `':'` and parses the rest as a bracketed
mailbox, failing when there is no `':'`. -/
theorem parsePath_bracket_route (t2 : List Char) :
    parsePath ('<' :: '@' :: t2) =
      match skipADL t2 with
      | none => .error .malformedADL
      | some t' => parsePathTail true t' := by
  simp [parsePath]

/-- `skipADL` finds the separating `':'` when the route itself contains
none. -/
theorem skipADL_append {adl t : List Char} (h : ':' ∉ adl) :
    skipADL (adl ++ ':' :: t) = some t := by
  induction adl with
  | nil => simp [skipADL]
  | cons c rest ih =>
    have hc : ¬ c = ':' := fun hq => h (by rw [hq]; simp)
    rw [List.cons_append, show skipADL (c :: (rest ++ ':' :: t)) =
      skipADL (rest ++ ':' :: t) from by simp [skipADL, hc]]
    exact ih (fun hq => h (by simp [hq]))

/-- `skipADL` fails on a string without `':'`. -/
theorem skipADL_none {t : List Char} (h : ':' ∉ t) : skipADL t = none := by
  induction t with
  | nil => simp [skipADL]
  | cons c rest ih =>
    have hc : ¬ c = ':' := fun hq => h (by rw [hq]; simp)
    rw [show skipADL (c :: rest) = skipADL rest from by simp [skipADL, hc]]
    exact ih (fun hq => h (by simp [hq]))

/-- C5: angle bracket balance must match.  For every input that begins
with `'<'` other than the null path `"<>"`, `parseReversePath` succeeds
only if a `'>'` immediately follows the consumed route and mailbox (the
remainder is preceded by a `'>'` in the input); concretely,
`"<root@nsa.gov"` is rejected while `"<root@nsa.gov>"` is accepted. -/
theorem C5_theorem :
    (∀ t m rest : List Char, ¬ t.head? = some '>' →
      parseReversePath ('<' :: t) = .ok (m, rest) → ∃ u, t = u ++ '>' :: rest) ∧
    parseReversePath "<root@nsa.gov".toList = .error (.expectedEOF '>') ∧
    parseReversePath "<root@nsa.gov>".toList = .ok ("root@nsa.gov".toList, []) := by
  refine ⟨?_, by decide, by decide⟩
  intro t m rest hhead h
  have hne : ¬ ('<' :: t).take 2 = ['<', '>'] := by
    cases t with
    | nil => simp
    | cons c t' =>
      intro hq
      simp [List.take] at hq
      exact hhead (by simp [hq])
  rw [parseReversePath_not_null _ hne] at h
  cases t with
  | nil =>
    rw [parsePath_bracket _ (by simp)] at h
    exact parsePathTail_true_ok h
  | cons c t2 =>
    by_cases hat : c = '@'
    · subst hat
      rw [parsePath_bracket_route t2] at h
      cases hskip : skipADL t2 with
      | none =>
        rw [hskip] at h
        exact Except.noConfusion h
      | some t3 =>
        rw [hskip] at h
        obtain ⟨u3, hu3⟩ := parsePathTail_true_ok h
        obtain ⟨u2, hu2⟩ := skipADL_some hskip
        refine ⟨'@' :: u2 ++ ':' :: u3, ?_⟩
        rw [hu2, hu3]
        simp
    · rw [parsePath_bracket _ (by simp [hat])] at h
      exact parsePathTail_true_ok h

/-- C5, witness: the universal part applied to the concrete accepted
input `"<root@nsa.gov>"`. -/
theorem C5_witness :
    ∃ u, "root@nsa.gov>".toList = u ++ '>' :: ([] : List Char) :=
  C5_theorem.1 "root@nsa.gov>".toList "root@nsa.gov".toList [] (by decide) (by decide)

/-- C6: for every bracketed path whose content after `'<'` begins with
`'@'`, `parsePath` discards everything up to and including the first
`':'` without validation and parses the mailbox that follows as a
bracketed mailbox; `"<@relay1,@relay2:user@example.org>"` yields
`user@example.org`; with no `':'` after the leading `'@'` it fails with
the malformed a-d-l error. -/
theorem C6_theorem :
    (∀ adl t : List Char, ':' ∉ adl →
      parsePath ('<' :: '@' :: (adl ++ ':' :: t)) = parsePathTail true t) ∧
    parsePath "<@relay1,@relay2:user@example.org>".toList =
      .ok ("user@example.org".toList, []) ∧
    (∀ t : List Char, ':' ∉ t →
      parsePath ('<' :: '@' :: t) = .error .malformedADL) := by
  refine ⟨?_, by decide, ?_⟩
  · intro adl t h
    rw [parsePath_bracket_route, skipADL_append h]
  · intro t h
    rw [parsePath_bracket_route, skipADL_none h]

/-- C6, witness: the route-skipping equation applied to the concrete
route `"@relay1,@relay2"` and mailbox `user@example.org`. -/
theorem C6_witness :
    parsePath ('<' :: '@' :: ("relay1,@relay2".toList ++ ':' ::
      "user@example.org>".toList)) = parsePathTail true "user@example.org>".toList ∧
    parsePath ('<' :: '@' :: "relay1,relay2".toList) = .error .malformedADL :=
  ⟨C6_theorem.1 "relay1,@relay2".toList "user@example.org>".toList (by decide),
   C6_theorem.2.2 "relay1,relay2".toList (by decide)⟩

/-- Embedding of `strings.EqualFold` restricted to the ASCII fold (the
only prefix compared in this development is `"FROM:"`). -/
def eqFold (a b : List Char) : Bool :=
  goToUpper a = goToUpper b

/-- Embedding of `cutPrefixFold` from `parse.go`: case-insensitively cut a
leading pattern, reporting failure when it is absent. -/
def cutPrefixFold (s pat : List Char) : Option (List Char) :=
  if s.length < pat.length ∨ ¬ eqFold (s.take pat.length) pat then none
  else some (s.drop pat.length)

/-- Modelled from the spec: the MAIL command handler (the server file that
hosts it is not under `src/`); per the spec's MAIL row and scenario 2, the
argument's case-insensitive `"FROM:"` prefix is cut with `cutPrefixFold`,
the reverse path after it is parsed with `parseReversePath`, and on
success the envelope's from field is the parsed path. -/
def handleMailFrom (arg : List Char) : Option (List Char × List Char) :=
  match cutPrefixFold arg "FROM:".toList with
  | none => none
  | some rest =>
    match parseReversePath rest with
    | .ok (fromPath, after) => some (fromPath, after)
    | .error _ => none

/-- C7: `parseReversePath` maps the empty angle-bracket pair `"<>"` (and
anything following it) to the empty string with no error, so
`MAIL FROM:<>` is accepted and the envelope's from field is the empty
string. -/
theorem C7_theorem :
    (∀ rest : List Char, parseReversePath ('<' :: '>' :: rest) = .ok ([], rest)) ∧
    handleMailFrom "FROM:<>".toList = some ([], []) := by
  constructor
  · intro rest
    simp [parseReversePath, List.take]
  · decide

/-- C7, witness: the null-path equation applied at a concrete tail. -/
theorem C7_witness :
    parseReversePath ('<' :: '>' :: " AUTH=x@y".toList) =
      .ok ([], " AUTH=x@y".toList) :=
  C7_theorem.1 " AUTH=x@y".toList

/-- An unterminated quoted string (no closing quote, no escapes) is
rejected as malformed. -/
theorem parseQuotedBody_unterminated {l : List Char} (hq : '"' ∉ l)
    (hb : '\\' ∉ l) : parseQuotedBody l = .error .malformedQuotedString := by
  induction l with
  | nil => simp [parseQuotedBody]
  | cons c rest ih =>
    have hcq : ¬ c = '"' := fun h => hq (by simp [h])
    have hcb : ¬ c = '\\' := fun h => hb (by simp [h])
    rw [parseQuotedBody.eq_def]
    simp only [if_neg hcq, if_neg hcb]
    rw [ih (fun h => hq (List.mem_cons_of_mem c h))
      (fun h => hb (List.mem_cons_of_mem c h))]

/-- A forbidden byte reached by the dot-string loop before any `'@'` makes
the scan fail. -/
theorem parseDotString_forbidden {u : List Char} (t : List Char) {c : Char}
    (hc : isDotStringForbidden c = true)
    (hu : ∀ d ∈ u, isDotStringForbidden d = false ∧ ¬ d = '@') :
    parseDotString (u ++ c :: t) = .error .malformedDotString := by
  induction u with
  | nil =>
    have hcat : ¬ c = '@' := by
      intro h
      subst h
      rw [show isDotStringForbidden '@' = false from by decide] at hc
      simp at hc
    simp [parseDotString, hcat, hc]
  | cons d rest ih =>
    obtain ⟨hdf, hdat⟩ := hu d (by simp)
    simp only [List.cons_append, parseDotString, if_neg hdat, hdf,
      Bool.false_eq_true, if_false, List.append_eq]
    rw [ih (fun e he => hu e (by simp [he]))]

/-- C3: the shape of `parseMailbox`.  The local part is a quoted string
(backslash escapes the following byte; termination by an unescaped `'"'`;
an unterminated quoted string is malformed) or a dot-string (rejected on a
forbidden byte before the `'@'`); the mandatory `'@'` follows the local
part; the domain is the maximal run of bytes that are not space, TAB or
`'>'`; an empty local part and an empty domain are errors; success returns
the string localPart@domain and the remainder after the domain. -/
theorem C3_theorem :
    (∀ (c : Char) (l v r : List Char), parseQuotedBody l = .ok (v, r) →
      parseQuotedBody ('\\' :: c :: l) = .ok (c :: v, r)) ∧
    (∀ l : List Char, parseQuotedBody ('"' :: l) = .ok ([], l)) ∧
    (∀ l : List Char, '"' ∉ l → '\\' ∉ l →
      parseQuotedBody l = .error .malformedQuotedString) ∧
    (∀ (u t : List Char) (c : Char), isDotStringForbidden c = true →
      (∀ d ∈ u, isDotStringForbidden d = false ∧ ¬ d = '@') →
      (u = [] → ¬ c = '"') →
      parseMailbox (u ++ c :: t) = .error (.inLocalPart .malformedDotString)) ∧
    (∀ l r : List Char, parseLocalPart l = .ok ([], r) →
      parseMailbox l = .error .localPartEmpty) ∧
    (∀ l lp r : List Char, parseLocalPart l = .ok (lp, r) → ¬ lp = [] →
      ¬ r.head? = some '@' → ∃ e, parseMailbox l = .error e) ∧
    (∀ l lp r : List Char, parseLocalPart l = .ok (lp, '@' :: r) → ¬ lp = [] →
      r.takeWhile (fun c => ¬ isDomainStop c) = [] →
      parseMailbox l = .error .domainEmpty) ∧
    (∀ l m rest : List Char, parseMailbox l = .ok (m, rest) →
      ∃ lp r, parseLocalPart l = .ok (lp, '@' :: r) ∧ ¬ lp = [] ∧
        m = lp ++ '@' :: r.takeWhile (fun c => ¬ isDomainStop c) ∧
        rest = r.dropWhile (fun c => ¬ isDomainStop c) ∧
        ¬ r.takeWhile (fun c => ¬ isDomainStop c) = []) := by
  refine ⟨?_, ?_, ?_, ?_, ?_, ?_, ?_, ?_⟩
  · intro c l v r h
    rw [parseQuotedBody.eq_def]
    simp [h]
  · intro l
    rw [parseQuotedBody.eq_def]
    simp
  · intro l hq hb
    exact parseQuotedBody_unterminated hq hb
  · intro u t c hc hu hquote
    have hds := parseDotString_forbidden t hc hu
    have hlp : parseLocalPart (u ++ c :: t) = parseDotString (u ++ c :: t) := by
      unfold parseLocalPart
      rw [if_neg]
      cases u with
      | nil =>
        simpa using hquote rfl
      | cons d u' =>
        have := (hu d (by simp)).1
        intro hh
        simp at hh
        rw [hh] at this
        exact absurd this (by decide)
    simp only [parseMailbox, hlp, hds]
  · intro l r h
    simp only [parseMailbox, h]
    simp
  · intro l lp r h hne hr
    simp only [parseMailbox, h]
    rw [if_neg hne]
    cases r with
    | nil =>
      exact ⟨.expectedEOF '@', by simp [expectByte]⟩
    | cons c r' =>
      have hc : ¬ c = '@' := by simpa using hr
      refine ⟨.expectedGot '@' c, ?_⟩
      simp [expectByte, hc]
  · intro l lp r h hne htw
    simp only [parseMailbox, h]
    rw [if_neg hne]
    have hexp : expectByte '@' ('@' :: r) = .ok r := by simp [expectByte]
    simp only [hexp, htw]
    rw [if_pos]
    rw [List.getLast?_append_of_ne_nil lp (by simp : ('@' :: ([] : List Char)) ≠ [])]
    rfl
  · intro l m rest h
    exact parseMailbox_ok_inv h

/-- C3, witness: each conjunct applied at a concrete input. -/
theorem C3_witness :
    parseQuotedBody ('\\' :: 'a' :: ['"']) = .ok (['a'], []) ∧
    parseQuotedBody ('"' :: "x".toList) = .ok ([], "x".toList) ∧
    parseQuotedBody "ab".toList = .error .malformedQuotedString ∧
    parseMailbox (['a'] ++ ' ' :: "b".toList) =
      .error (.inLocalPart .malformedDotString) ∧
    parseMailbox "@x".toList = .error .localPartEmpty ∧
    (∃ e, parseMailbox "ab".toList = .error e) ∧
    parseMailbox "a@".toList = .error .domainEmpty ∧
    (∃ lp r, parseLocalPart "a@b c".toList = .ok (lp, '@' :: r) ∧ ¬ lp = [] ∧
      "a@b".toList = lp ++ '@' :: r.takeWhile (fun c => ¬ isDomainStop c) ∧
      " c".toList = r.dropWhile (fun c => ¬ isDomainStop c) ∧
      ¬ r.takeWhile (fun c => ¬ isDomainStop c) = []) :=
  ⟨C3_theorem.1 'a' ['"'] [] [] (by decide),
   C3_theorem.2.1 "x".toList,
   C3_theorem.2.2.1 "ab".toList (by decide) (by decide),
   C3_theorem.2.2.2.1 ['a'] "b".toList ' ' (by decide) (by decide) (by decide),
   C3_theorem.2.2.2.2.1 "@x".toList "@x".toList (by decide),
   C3_theorem.2.2.2.2.2.1 "ab".toList "ab".toList [] (by decide) (by decide) (by decide),
   C3_theorem.2.2.2.2.2.2.1 "a@".toList ['a'] [] (by decide) (by decide) (by decide),
   C3_theorem.2.2.2.2.2.2.2 "a@b c".toList "a@b".toList " c".toList (by decide)⟩

/-- `goCut` finds the separator appended after a separator-free prefix. -/
theorem goCut_append {sep : Char} {pre post : List Char} (h : sep ∉ pre) :
    goCut sep (pre ++ sep :: post) = some (pre, post) := by
  induction pre with
  | nil => simp [goCut]
  | cons c rest ih =>
    have hc : ¬ c = sep := fun hq => h (by rw [hq]; simp)
    rw [List.cons_append, goCut, if_neg hc, ih (fun hq => h (by simp [hq]))]

/-- `goCut` fails on a separator-free string. -/
theorem goCut_none {sep : Char} {l : List Char} (h : sep ∉ l) :
    goCut sep l = none := by
  induction l with
  | nil => simp [goCut]
  | cons c rest ih =>
    have hc : ¬ c = sep := fun hq => h (by rw [hq]; simp)
    rw [goCut, if_neg hc, ih (fun hq => h (by simp [hq]))]

/-- C4: `parseDeliverByArgument` returns nil whenever the argument lacks a
`';'`, or the mode after the `';'` (with one optional trailing `'T'`
removed) is neither `"R"` nor `"N"`, or the seconds part does not have
integer syntax, or the mode is `"R"` with seconds below 1; with mode
`"N"` and seconds 0 it returns options with `Time` 0 and Notify mode, and
a trailing `'T'` sets the `Trace` flag. -/
theorem C4_theorem :
    (∀ arg : List Char, ';' ∉ arg → parseDeliverByArgument arg = none) ∧
    (∀ pre post : List Char, ';' ∉ pre →
      ¬ (cutSuffixT post).1 = DeliverByNotify →
      ¬ (cutSuffixT post).1 = DeliverByReturn →
      parseDeliverByArgument (pre ++ ';' :: post) = none) ∧
    (∀ pre post : List Char, ';' ∉ pre → atoiSyntax pre = false →
      parseDeliverByArgument (pre ++ ';' :: post) = none) ∧
    (∀ (pre : List Char) (n : Int), ';' ∉ pre → goAtoi pre = some n → n < 1 →
      parseDeliverByArgument (pre ++ ';' :: ['R']) = none ∧
      parseDeliverByArgument (pre ++ ';' :: ['R', 'T']) = none) ∧
    (∀ pre : List Char, ';' ∉ pre → goAtoi pre = some 0 →
      parseDeliverByArgument (pre ++ ';' :: ['N']) =
        some ⟨0, DeliverByNotify, false⟩ ∧
      parseDeliverByArgument (pre ++ ';' :: ['N', 'T']) =
        some ⟨0, DeliverByNotify, true⟩) := by
  refine ⟨?_, ?_, ?_, ?_, ?_⟩
  · intro arg h
    simp only [parseDeliverByArgument, goCut_none h]
  · intro pre post hs hn hr
    simp only [parseDeliverByArgument, goCut_append hs]
    rcases hcs : cutSuffixT post with ⟨ms, tv⟩
    rw [hcs] at hn hr
    simp only [hcs]
    rw [if_pos ⟨by simpa using hn, by simpa using hr⟩]
  · intro pre post hs hsyn
    simp only [parseDeliverByArgument, goCut_append hs]
    rcases hcs : cutSuffixT post with ⟨ms, tv⟩
    simp only [hcs]
    have hatoi : goAtoi pre = none := by
      unfold goAtoi
      rw [hsyn]
      simp
    by_cases hmode : ¬ ms = DeliverByNotify ∧ ¬ ms = DeliverByReturn
    · rw [if_pos hmode]
    · rw [if_neg hmode]
      simp only [hatoi]
  · intro pre n hs hatoi hlt
    have hcs1 : cutSuffixT ['R'] = (['R'], false) := by decide
    have hcs2 : cutSuffixT ['R', 'T'] = (['R'], true) := by decide
    constructor
    · simp only [parseDeliverByArgument, goCut_append hs, hcs1]
      rw [if_neg (by simp [DeliverByNotify, DeliverByReturn])]
      simp only [hatoi]
      rw [if_pos ⟨rfl, hlt⟩]
    · simp only [parseDeliverByArgument, goCut_append hs, hcs2]
      rw [if_neg (by simp [DeliverByNotify, DeliverByReturn])]
      simp only [hatoi]
      rw [if_pos ⟨rfl, hlt⟩]
  · intro pre hs hatoi
    have hcs1 : cutSuffixT ['N'] = (['N'], false) := by decide
    have hcs2 : cutSuffixT ['N', 'T'] = (['N'], true) := by decide
    have hw : wrap64 (0 * 1000000000) = 0 := by decide
    constructor
    · simp only [parseDeliverByArgument, goCut_append hs, hcs1]
      rw [if_neg (by simp [DeliverByNotify])]
      simp only [hatoi]
      rw [if_neg (fun hq => absurd hq.1 (by decide)), hw]
      rfl
    · simp only [parseDeliverByArgument, goCut_append hs, hcs2]
      rw [if_neg (by simp [DeliverByNotify])]
      simp only [hatoi]
      rw [if_neg (fun hq => absurd hq.1 (by decide)), hw]
      rfl

/-- C4, witness: each conjunct applied at a concrete argument. -/
theorem C4_witness :
    parseDeliverByArgument "300".toList = none ∧
    parseDeliverByArgument "300;X".toList = none ∧
    parseDeliverByArgument "abc;N".toList = none ∧
    parseDeliverByArgument "0;R".toList = none ∧
    parseDeliverByArgument "0;N".toList = some ⟨0, DeliverByNotify, false⟩ ∧
    parseDeliverByArgument "0;NT".toList = some ⟨0, DeliverByNotify, true⟩ := by
  have h1 := C4_theorem.1 "300".toList (by decide)
  have h2 := C4_theorem.2.1 "300".toList ['X'] (by decide) (by decide) (by decide)
  have h3 := C4_theorem.2.2.1 "abc".toList ['N'] (by decide) (by decide)
  have h4 := (C4_theorem.2.2.2.1 ['0'] 0 (by decide) (by decide) (by decide)).1
  have h5 := (C4_theorem.2.2.2.2 ['0'] (by decide) (by decide)).1
  have h6 := (C4_theorem.2.2.2.2 ['0'] (by decide) (by decide)).2
  exact ⟨h1, by exact h2, by exact h3, by exact h4, by exact h5, by exact h6⟩

/-- `s` is the canonical decimal rendering of the negative integer `n`: a
`'-'` followed by a non-empty digit run without a leading zero whose value
is `-n`. -/
def isDecimalRendering (s : List Char) (n : Int) : Prop :=
  ∃ ds : List Char, s = '-' :: ds ∧ ¬ ds = [] ∧ (∀ c ∈ ds, c.isDigit) ∧
    ¬ ds.head? = some '0' ∧ (digitsVal ds : Int) = -n

/-- Claim C10 as stated: for EVERY negative integer `n`, the argument
`render(n) ++ ";N"` parses to non-nil options whose `Time` is the exact
duration of `n` seconds. -/
def c10Claim : Prop :=
  ∀ (s : List Char) (n : Int), n < 0 → isDecimalRendering s n →
    ∃ opts : DeliverByOptions,
      parseDeliverByArgument (s ++ [';', 'N']) = some opts ∧
      opts.Time = n * 1000000000

/-- C10, counterexample: the claim as stated is false.  At
`n = -9223372036854775809 = -(2^63) - 1` the seconds string overflows
`strconv.Atoi`'s 64-bit range, so `parseDeliverByArgument` returns nil
although the claim demands non-nil options. -/
theorem C10_counterexample : ¬ c10Claim := by
  intro h
  obtain ⟨opts, hp, ht⟩ := h "-9223372036854775809".toList (-9223372036854775809)
    (by norm_num)
    ⟨"9223372036854775809".toList, by decide, by decide, by decide, by decide, by decide⟩
  rw [show parseDeliverByArgument ("-9223372036854775809".toList ++ [';', 'N']) = none
    from by decide] at hp
  exact Option.noConfusion hp

/-- C10, amended: for every negative integer `n` with
`-9223372036 ≤ n` (so that both the seconds value and the nanosecond
duration `n * 10^9` fit a signed 64-bit integer), parsing the decimal
rendering of `n` followed by `";N"` yields options with `Time` equal to
the negative duration of `n` seconds, Notify mode, and no trace flag: the
`seconds ≥ 1` lower bound is enforced only for mode `"R"`. -/
theorem C10_theorem (s : List Char) (n : Int) (h1 : n < 0)
    (h2 : -9223372036 ≤ n) (h3 : isDecimalRendering s n) :
    parseDeliverByArgument (s ++ [';', 'N']) =
      some ⟨n * 1000000000, DeliverByNotify, false⟩ := by
  obtain ⟨ds, rfl, hne, hdig, hzero, hval⟩ := h3
  have hsemi : ';' ∉ '-' :: ds := by
    intro hmem
    rcases List.mem_cons.1 hmem with hq | hq
    · exact absurd hq (by decide)
    · have := hdig ';' hq
      exact absurd this (by decide)
  have hcut : goCut ';' (('-' :: ds) ++ ';' :: ['N']) = some ('-' :: ds, ['N']) :=
    goCut_append hsemi
  have hcs : cutSuffixT ['N'] = (['N'], false) := by decide
  have hstrip : stripSign ('-' :: ds) = (-1, ds) := by
    rw [stripSign.eq_def]
    simp
  have hsyn : atoiSyntax ('-' :: ds) = true := by
    unfold atoiSyntax
    rw [hstrip]
    simp only [decide_eq_true_eq, List.all_eq_true]
    exact ⟨by simpa using hne, fun c hc => by simpa using hdig c hc⟩
  have hatoi : goAtoi ('-' :: ds) = some n := by
    unfold goAtoi
    rw [if_pos hsyn]
    simp only [hstrip]
    have hv : (-1 : Int) * (digitsVal ds : Int) = n := by rw [hval]; ring
    rw [hv]
    rw [if_neg (by omega)]
  simp only [parseDeliverByArgument, hcut, hcs]
  rw [if_neg (by decide)]
  simp only [hatoi]
  rw [if_neg (fun hq => absurd hq.1 (by decide))]
  have hwrap : wrap64 (n * 1000000000) = n * 1000000000 := by
    unfold wrap64
    omega
  rw [hwrap]
  rfl

/-- C10, witness: the amended theorem applied at `n = -5`. -/
theorem C10_witness :
    parseDeliverByArgument ("-5".toList ++ [';', 'N']) =
      some ⟨-5000000000, DeliverByNotify, false⟩ := by
  have h := C10_theorem "-5".toList (-5) (by norm_num) (by norm_num)
    ⟨['5'], by decide, by decide, by decide, by decide, by decide⟩
  exact h.trans (by decide)

/-- Head hit of the association-map lookup. -/
theorem mapGet_cons_hit {a b k : List Char} {m : List (List Char × List Char)}
    (h : a = k) : mapGet ((a, b) :: m) k = some b := by
  rw [mapGet, List.find?_cons_of_pos _ (by simpa using h)]
  rfl

/-- Head miss of the association-map lookup. -/
theorem mapGet_cons_miss {a b k : List Char} {m : List (List Char × List Char)}
    (h : ¬ a = k) : mapGet ((a, b) :: m) k = mapGet m k := by
  rw [mapGet, List.find?_cons_of_neg _ (by simpa using h)]
  rfl

/-- Replacing entries keyed `q` does not affect lookups of other keys. -/
theorem mapGet_map_other {m : List (List Char × List Char)} {q v k : List Char}
    (h : ¬ k = q) :
    mapGet (m.map (fun p => if p.1 = q then (q, v) else p)) k = mapGet m k := by
  induction m with
  | nil => rfl
  | cons p m ih =>
    obtain ⟨a, b⟩ := p
    by_cases haq : a = q
    · subst haq
      have hhead : (fun (p : List Char × List Char) => if p.1 = a then (a, v) else p) (a, b) =
          (a, v) := by simp
      simp only [List.map_cons, hhead, if_true]
      rw [mapGet_cons_miss (fun hq => h hq.symm), mapGet_cons_miss (fun hq => h hq.symm)]
      exact ih
    · simp only [List.map_cons, if_neg haq]
      by_cases hak : a = k
      · rw [mapGet_cons_hit hak, mapGet_cons_hit hak]
      · rw [mapGet_cons_miss hak, mapGet_cons_miss hak]
        exact ih

/-- Lookup after a Go map assignment: the assigned key reads the new
value, every other key is unchanged. -/
theorem mapGet_insert (m : List (List Char × List Char)) (q v k : List Char) :
    mapGet (mapInsert m q v) k = if k = q then some v else mapGet m k := by
  induction m with
  | nil =>
    rw [mapInsert]
    simp only [List.any_nil, Bool.false_eq_true, if_false, List.nil_append]
    by_cases hk : k = q
    · rw [if_pos hk, mapGet_cons_hit hk.symm]
    · rw [if_neg hk, mapGet_cons_miss (fun hq => hk hq.symm)]
  | cons p m ih =>
    obtain ⟨a, b⟩ := p
    by_cases haq : a = q
    · subst haq
      have hany : ((a, b) :: m).any (fun p => p.1 = a) = true := by simp
      rw [mapInsert, if_pos hany]
      have hhead : (fun (p : List Char × List Char) => if p.1 = a then (a, v) else p) (a, b) =
          (a, v) := by simp
      simp only [List.map_cons, hhead, if_true]
      by_cases hk : k = a
      · rw [if_pos hk, mapGet_cons_hit hk.symm]
      · rw [if_neg hk, mapGet_cons_miss (fun hq => hk hq.symm),
          mapGet_cons_miss (fun hq => hk hq.symm)]
        exact mapGet_map_other hk
    · have hstep : mapGet (mapInsert m q v) k = if k = q then some v else mapGet m k := ih
      by_cases hany : m.any (fun p => p.1 = q) = true
      · have hany2 : ((a, b) :: m).any (fun p => p.1 = q) = true := by
          simp [List.any_cons, hany]
        rw [mapInsert, if_pos hany2]
        simp only [List.map_cons, if_neg haq]
        by_cases hak : a = k
        · rw [mapGet_cons_hit hak, if_neg (fun hq => haq (hak.trans hq)),
            mapGet_cons_hit hak]
        · rw [mapGet_cons_miss hak]
          have hmi : (m.map (fun p => if p.1 = q then (q, v) else p)) = mapInsert m q v := by
            rw [mapInsert, if_pos hany]
          rw [hmi, hstep]
          by_cases hk : k = q
          · rw [if_pos hk, if_pos hk]
          · rw [if_neg hk, if_neg hk, mapGet_cons_miss hak]
      · have hany2 : ¬ ((a, b) :: m).any (fun p => p.1 = q) = true := by
          simp only [List.any_cons, Bool.or_eq_true, decide_eq_true_eq]
          rintro (hq | hq)
          · exact haq hq
          · exact hany (by simpa using hq)
        rw [mapInsert, if_neg hany2, List.cons_append]
        by_cases hak : a = k
        · rw [mapGet_cons_hit hak, if_neg (fun hq => haq (hak.trans hq)),
            mapGet_cons_hit hak]
        · rw [mapGet_cons_miss hak]
          have hmi : m ++ [(q, v)] = mapInsert m q v := by
            rw [mapInsert, if_neg (by simpa using hany)]
          rw [hmi, hstep]
          by_cases hk : k = q
          · rw [if_pos hk, if_pos hk]
          · rw [if_neg hk, if_neg hk, mapGet_cons_miss hak]

/-- The last-wins lookup described by the spec: the value of the last
whitespace-separated token whose uppercased key equals `k`. -/
def specLastWins (s k : List Char) : Option (List Char) :=
  (goFields s).reverse.findSome? (fun tok =>
    if (argEntry tok).1 = k then some (argEntry tok).2 else none)

/-- Lookup through the `parseArgs` fold equals the last matching token,
falling back to the accumulator. -/
theorem parseArgs_foldl_lookup (toks : List (List Char))
    (acc : List (List Char × List Char)) (k : List Char) :
    mapGet (toks.foldl (fun m tok => mapInsert m (argEntry tok).1 (argEntry tok).2) acc) k =
      match toks.reverse.findSome? (fun tok =>
          if (argEntry tok).1 = k then some (argEntry tok).2 else none) with
      | some v => some v
      | none => mapGet acc k := by
  induction toks generalizing acc with
  | nil => simp
  | cons t toks ih =>
    rw [List.foldl_cons, ih, List.reverse_cons, List.findSome?_append]
    cases hfs : toks.reverse.findSome? (fun tok =>
        if (argEntry tok).1 = k then some (argEntry tok).2 else none) with
    | some v => simp [Option.or]
    | none =>
      simp only [Option.or]
      rw [mapGet_insert]
      by_cases hk : k = (argEntry t).1
      · rw [if_pos hk]
        simp [List.findSome?, hk.symm]
      · rw [if_neg hk]
        have hne : ¬ (argEntry t).1 = k := fun hq => hk hq.symm
        simp [List.findSome?, hne]

/-- C8: `parseArgs` always returns a nil error together with the map of
the whitespace-split tokens `KEY[=VALUE]`, each keyed by the uppercased
KEY with the verbatim VALUE (empty without `'='`), where for duplicate
uppercased keys the last occurrence wins. -/
theorem C8_theorem :
    (∀ s : List Char, parseArgs s = .ok (parseArgsMap s)) ∧
    (∀ s k : List Char, mapGet (parseArgsMap s) k = specLastWins s k) := by
  constructor
  · intro s
    rfl
  · intro s k
    rw [parseArgsMap, specLastWins, parseArgs_foldl_lookup]
    cases hfs : (goFields s).reverse.findSome? (fun tok =>
        if (argEntry tok).1 = k then some (argEntry tok).2 else none) with
    | some v => rfl
    | none => rfl

/-- C8, witness: the last-wins lookup on a concrete parameter list with a
duplicate key, a valueless key, and a verbatim value. -/
theorem C8_witness :
    parseArgs " BODY=8BITMIME size=a SIZE=1024 SMTPUTF8".toList =
      .ok (parseArgsMap " BODY=8BITMIME size=a SIZE=1024 SMTPUTF8".toList) ∧
    mapGet (parseArgsMap " BODY=8BITMIME size=a SIZE=1024 SMTPUTF8".toList)
      "SIZE".toList = some "1024".toList ∧
    mapGet (parseArgsMap " BODY=8BITMIME size=a SIZE=1024 SMTPUTF8".toList)
      "SMTPUTF8".toList = some [] :=
  ⟨C8_theorem.1 " BODY=8BITMIME size=a SIZE=1024 SMTPUTF8".toList,
   ((C8_theorem.2 " BODY=8BITMIME size=a SIZE=1024 SMTPUTF8".toList "SIZE".toList).trans
     (by decide)),
   ((C8_theorem.2 " BODY=8BITMIME size=a SIZE=1024 SMTPUTF8".toList "SMTPUTF8".toList).trans
     (by decide))⟩

/-- Decoding inverts the base64 alphabet on indices below 64. -/
theorem b64d_b64e : ∀ n < 64, b64d (b64e n) = some n := by decide

/-- No alphabet byte is the padding byte `'='` (61). -/
theorem b64e_ne_61 : ∀ n < 64, ¬ b64e n = 61 := by decide

/-- Standard base64 round-trip on octet strings. -/
theorem base64_roundTrip (bs : List Nat) (h : ∀ b ∈ bs, b < 256) :
    base64Decode (base64Encode bs) = some bs := by
  induction bs using base64Encode.induct with
  | case1 => rfl
  | case2 a =>
    have ha : a < 256 := h a (by simp)
    have h1 : b64d (b64e (a / 4)) = some (a / 4) := b64d_b64e _ (by omega)
    have h2 : b64d (b64e (a % 4 * 16)) = some (a % 4 * 16) := b64d_b64e _ (by omega)
    rw [base64Encode, base64Decode.eq_def]
    dsimp only
    rw [if_pos ⟨rfl, rfl⟩]
    simp only [h1, h2, if_true]
    have hval : a / 4 * 4 + a % 4 * 16 / 16 = a := by omega
    rw [hval]
  | case3 a b =>
    have ha : a < 256 := h a (by simp)
    have hb : b < 256 := h b (by simp)
    have h1 : b64d (b64e (a / 4)) = some (a / 4) := b64d_b64e _ (by omega)
    have h2 : b64d (b64e (a % 4 * 16 + b / 16)) = some (a % 4 * 16 + b / 16) :=
      b64d_b64e _ (by omega)
    have h3 : b64d (b64e (b % 16 * 4)) = some (b % 16 * 4) := b64d_b64e _ (by omega)
    have hy : ¬ b64e (b % 16 * 4) = 61 := b64e_ne_61 _ (by omega)
    rw [base64Encode, base64Decode.eq_def]
    dsimp only
    rw [if_pos ⟨rfl, rfl⟩]
    simp only [h1, h2]
    rw [if_neg hy]
    simp only [h3]
    have hv1 : a / 4 * 4 + (a % 4 * 16 + b / 16) / 16 = a := by omega
    have hv2 : (a % 4 * 16 + b / 16) % 16 * 16 + b % 16 * 4 / 4 = b := by omega
    rw [hv1, hv2]
  | case4 a b c rest ih =>
    have ha : a < 256 := h a (by simp)
    have hb : b < 256 := h b (by simp)
    have hc : c < 256 := h c (by simp)
    have hrest : ∀ b ∈ rest, b < 256 := fun d hd => h d (by simp [hd])
    have h1 : b64d (b64e (a / 4)) = some (a / 4) := b64d_b64e _ (by omega)
    have h2 : b64d (b64e (a % 4 * 16 + b / 16)) = some (a % 4 * 16 + b / 16) :=
      b64d_b64e _ (by omega)
    have h3 : b64d (b64e (b % 16 * 4 + c / 64)) = some (b % 16 * 4 + c / 64) :=
      b64d_b64e _ (by omega)
    have h4 : b64d (b64e (c % 64)) = some (c % 64) := b64d_b64e _ (by omega)
    have hz : ¬ b64e (c % 64) = 61 := b64e_ne_61 _ (by omega)
    rw [base64Encode, base64Decode.eq_def]
    dsimp only
    rw [if_neg (fun hq => hz hq.2)]
    simp only [h1, h2, h3, h4, ih hrest]
    have hv1 : a / 4 * 4 + (a % 4 * 16 + b / 16) / 16 = a := by omega
    have hv2 : (a % 4 * 16 + b / 16) % 16 * 16 + (b % 16 * 4 + c / 64) / 4 = b := by
      omega
    have hv3 : (b % 16 * 4 + c / 64) % 4 * 64 + c % 64 = c := by omega
    rw [hv1, hv2, hv3]

/-- A TAB-free byte string splits into a single record. -/
theorem splitTab_noTab {r : List Nat} (h : 9 ∉ r) : splitTab r = [r] := by
  induction r with
  | nil => rfl
  | cons c rest ih =>
    have hc : ¬ c = 9 := fun hq => h (by rw [hq]; simp)
    rw [splitTab, if_neg hc, ih (fun hq => h (by simp [hq]))]

/-- Splitting passes over a TAB-free first record. -/
theorem splitTab_append {r t : List Nat} (h : 9 ∉ r) :
    splitTab (r ++ 9 :: t) = r :: splitTab t := by
  induction r with
  | nil => simp [splitTab]
  | cons c rest ih =>
    have hc : ¬ c = 9 := fun hq => h (by rw [hq]; simp)
    rw [List.cons_append, splitTab, if_neg hc, ih (fun hq => h (by simp [hq]))]

/-- `cutEq` cuts at the separator appended after a 61-free key. -/
theorem cutEq_append {k v : List Nat} (h : 61 ∉ k) :
    cutEq (k ++ 61 :: v) = some (k, v) := by
  induction k with
  | nil => simp [cutEq]
  | cons c rest ih =>
    have hc : ¬ c = 61 := fun hq => h (by rw [hq]; simp)
    rw [List.cons_append, cutEq, if_neg hc, ih (fun hq => h (by simp [hq]))]

/-- Unescaping is the identity on backslash-free byte strings. -/
theorem unescapeXF_id {v : List Nat} (h : 92 ∉ v) : unescapeXF v = v := by
  induction v using unescapeXF.induct with
  | case1 => rfl
  | case2 c => rfl
  | case3 c d rest hcd ih =>
    exact absurd (by rw [hcd.1]; simp) h
  | case4 c d rest hcd ih =>
    rw [unescapeXF, if_neg hcd]
    rw [ih (fun hq => h (List.mem_cons_of_mem c hq))]

/-- A record `key=value` is never empty. -/
theorem record_ne_nil (k v : List Nat) : ¬ k ++ 61 :: v = [] := by
  cases k <;> simp

/-- Parsing the split records of an encoded pair list recovers the pairs,
when every key is non-empty, TAB- and 61-free, and every value TAB- and
backslash-free. -/
theorem parseXF_encodePairs (pairs : List (List Nat × List Nat))
    (hne : ¬ pairs = [])
    (hel : ∀ p ∈ pairs, ¬ p.1 = [] ∧ (∀ b ∈ p.1, ¬ b = 9 ∧ ¬ b = 61) ∧
      (∀ b ∈ p.2, ¬ b = 9 ∧ ¬ b = 92)) :
    parseXFRecords (splitTab (encodePairs pairs)) = .ok pairs := by
  induction pairs with
  | nil => exact absurd rfl hne
  | cons p rest ih =>
    obtain ⟨hk_ne, hk, hv⟩ := hel p (by simp)
    have hrec_noTab : 9 ∉ p.1 ++ 61 :: p.2 := by
      intro hmem
      rcases List.mem_append.1 hmem with hq | hq
      · exact (hk 9 hq).1 rfl
      · rcases List.mem_cons.1 hq with hq | hq
        · exact absurd hq (by decide)
        · exact (hv 9 hq).1 rfl
    have hcut : cutEq (p.1 ++ 61 :: p.2) = some (p.1, p.2) :=
      cutEq_append (fun hq => (hk 61 hq).2 rfl)
    have hunesc : unescapeXF p.2 = p.2 :=
      unescapeXF_id (fun hq => (hv 92 hq).2 rfl)
    cases rest with
    | nil =>
      rw [show encodePairs [p] = p.1 ++ 61 :: p.2 from rfl]
      rw [splitTab_noTab hrec_noTab]
      rw [parseXFRecords, if_neg (record_ne_nil p.1 p.2), hcut]
      dsimp only
      rw [if_neg hk_ne, hunesc]
      rfl
    | cons q rest' =>
      have hassoc : encodePairs (p :: q :: rest') =
          (p.1 ++ 61 :: p.2) ++ 9 :: encodePairs (q :: rest') := by
        simp only [encodePairs]
      rw [hassoc, splitTab_append hrec_noTab]
      rw [parseXFRecords, if_neg (record_ne_nil p.1 p.2), hcut]
      dsimp only
      rw [if_neg hk_ne, hunesc]
      rw [ih (by simp) (fun q hq => hel q (by simp [hq]))]

/-- All bytes of an encoded pair list are octets when all keys and values
are octet strings. -/
theorem encodePairs_bytes {pairs : List (List Nat × List Nat)}
    (h : ∀ p ∈ pairs, (∀ b ∈ p.1, b < 256) ∧ (∀ b ∈ p.2, b < 256)) :
    ∀ b ∈ encodePairs pairs, b < 256 := by
  induction pairs with
  | nil => simp [encodePairs]
  | cons p rest ih =>
    obtain ⟨hk, hv⟩ := h p (by simp)
    intro b hb
    cases rest with
    | nil =>
      rw [show encodePairs [p] = p.1 ++ 61 :: p.2 from rfl] at hb
      rcases List.mem_append.1 hb with hq | hq
      · exact hk b hq
      · rcases List.mem_cons.1 hq with rfl | hq
        · omega
        · exact hv b hq
    | cons q rest' =>
      rw [show encodePairs (p :: q :: rest') =
        p.1 ++ 61 :: (p.2 ++ 9 :: encodePairs (q :: rest')) from by
          simp only [encodePairs]; simp] at hb
      rcases List.mem_append.1 hb with hq | hq
      · exact hk b hq
      · rcases List.mem_cons.1 hq with rfl | hq
        · omega
        · rcases List.mem_append.1 hq with hq | hq
          · exact hv b hq
          · rcases List.mem_cons.1 hq with rfl | hq
            · omega
            · exact ih (fun r hr => h r (by simp [hr])) b hq

/-- The encoding of a non-empty pair list is non-empty. -/
theorem encodePairs_ne_nil {pairs : List (List Nat × List Nat)}
    (h : ¬ pairs = []) : ¬ encodePairs pairs = [] := by
  cases pairs with
  | nil => exact absurd rfl h
  | cons p rest =>
    cases rest with
    | nil => exact record_ne_nil p.1 p.2
    | cons q rest' =>
      simp only [encodePairs]
      cases p.1 <;> simp

/-- The base64 encoding of a non-empty byte string is non-empty. -/
theorem base64Encode_ne_nil {bs : List Nat} (h : ¬ bs = []) :
    ¬ base64Encode bs = [] := by
  cases bs with
  | nil => exact absurd rfl h
  | cons a t =>
    cases t with
    | nil => simp [base64Encode]
    | cons b t2 =>
      cases t2 with
      | nil => simp [base64Encode]
      | cons c t3 => simp [base64Encode]

/-- Well-formedness of an XRCPTFORWARD pair list in the sense of claim C9:
a non-empty map (distinct keys), non-empty keys, all key and value bytes
octets none of which is TAB, LF, CR or backslash, and a TAB-separated
encoding of at most 900 octets. -/
def c9WellFormed (pairs : List (List Nat × List Nat)) : Prop :=
  ¬ pairs = [] ∧ (pairs.map Prod.fst).Nodup ∧
    (∀ p ∈ pairs, ¬ p.1 = [] ∧
      (∀ b ∈ p.1, b < 256 ∧ ¬ b = 9 ∧ ¬ b = 10 ∧ ¬ b = 13 ∧ ¬ b = 92) ∧
      (∀ b ∈ p.2, b < 256 ∧ ¬ b = 9 ∧ ¬ b = 10 ∧ ¬ b = 13 ∧ ¬ b = 92)) ∧
    (encodePairs pairs).length ≤ 900

instance (pairs : List (List Nat × List Nat)) : Decidable (c9WellFormed pairs) := by
  unfold c9WellFormed
  infer_instance

/-- Claim C9 as stated: every well-formed pair list round-trips through
the base64 encoding of its TAB-separated rendering. -/
def c9Claim : Prop :=
  ∀ pairs : List (List Nat × List Nat), c9WellFormed pairs →
    ParseXRCPTFORWARD (base64Encode (encodePairs pairs)) = .ok pairs

/-- C9, counterexample: the claim as stated is false.  The single pair
with key `"a=b"` and value `"c"` is well-formed in the claim's sense (an
`'='` in a key is not excluded), but its record `"a=b=c"` is cut at the
FIRST `'='`, so the parse returns the different pair `("a", "b=c")`. -/
theorem C9_counterexample : ¬ c9Claim := by
  intro h
  have h2 := h [([97, 61, 98], [99])] (by decide)
  exact absurd h2 (by decide)

/-- C9, amended: the round-trip holds for every well-formed pair list
whose keys additionally contain no `'='` (byte 61): parsing the
standard-alphabet base64 encoding of the TAB-separated `key=value`
records returns exactly the pairs, with values unescaped (here untouched,
as no backslash occurs) and no record empty. -/
theorem C9_theorem (pairs : List (List Nat × List Nat)) (h : c9WellFormed pairs)
    (hkeys : ∀ p ∈ pairs, 61 ∉ p.1) :
    ParseXRCPTFORWARD (base64Encode (encodePairs pairs)) = .ok pairs := by
  obtain ⟨hne, hnd, hel, hlen⟩ := h
  have hbytes : ∀ b ∈ encodePairs pairs, b < 256 :=
    encodePairs_bytes (fun p hp =>
      ⟨fun b hb => ((hel p hp).2.1 b hb).1, fun b hb => ((hel p hp).2.2 b hb).1⟩)
  have hdec := base64_roundTrip _ hbytes
  have hinne : ¬ base64Encode (encodePairs pairs) = [] :=
    base64Encode_ne_nil (encodePairs_ne_nil hne)
  rw [ParseXRCPTFORWARD, if_neg hinne]
  simp only [hdec]
  rw [if_neg (by omega)]
  refine parseXF_encodePairs pairs hne (fun p hp => ⟨(hel p hp).1, ?_, ?_⟩)
  · intro b hb
    refine ⟨((hel p hp).2.1 b hb).2.1, fun hq => hkeys p hp ?_⟩
    rw [← hq]
    exact hb
  · intro b hb
    exact ⟨((hel p hp).2.2 b hb).2.1, ((hel p hp).2.2 b hb).2.2.2.2⟩

/-- C9, witness: the amended round-trip at the concrete pair list
`user=john`. -/
theorem C9_witness :
    ParseXRCPTFORWARD (base64Encode (encodePairs
      [(asciiBytes "user", asciiBytes "john")])) =
      .ok [(asciiBytes "user", asciiBytes "john")] :=
  C9_theorem [(asciiBytes "user", asciiBytes "john")] (by decide) (by decide)
